import Mathlib

/-!
# go-rsync: address parsing, pre-path trimming, prefix matching and the daemon handshake

A shallow embedding of `rsync/utils.go` and `rsync/client.go`.

Conventions of the embedding

* A Go `string` is modelled as the sequence of its code points, `List Char`
  (well-formed UTF-8 text).  The byte `'/'`, `':'` ... of the source are ASCII,
  so `strings.IndexByte` finds the same position in either view and the
  slices `s[:i]`, `s[i:]`, `s[i+1:]` cut at the same place.
* A Go `[]byte` is a `List Nat` (each entry a byte value).
* A Go `panic` is an outcome of its own (`Outcome.panic`), distinct from a
  returned `error`.
* A Go `error` is `Option Error` (`none` is `nil`).
-/

namespace Rsync

/-- A Go string, as the list of its code points. -/
abbrev GoString := List Char

/-- Go errors: those the transport hands back (`io`), the end of the stream,
and those built in the source by `errors.New` / `fmt.Errorf` (`text`). -/
inductive Error where
  | eof : Error
  | io (code : Nat) : Error
  | text (msg : String) : Error
  deriving DecidableEq, Repr

/-- Outcome of a Go call that may panic instead of returning. -/
inductive Outcome (α : Type) where
  | ret (a : α) : Outcome α
  | panic (msg : String) : Outcome α
  deriving DecidableEq, Repr

/-! ## The `strings` functions used by the source -/

/-- Model of `strings.HasPrefix(s, prefix)`. -/
def hasPrefix (s pre : GoString) : Bool := pre.isPrefixOf s

/-- Model of `strings.HasSuffix(s, suffix)`. -/
def hasSuffix (s suf : GoString) : Bool := suf.isSuffixOf s

/-- Model of `strings.IndexByte(s, c)`; `none` stands for `-1`. -/
def indexByte : GoString → Char → Option Nat
  | [], _ => none
  | x :: xs, c => if x = c then some 0 else (indexByte xs c).map (· + 1)

/-- Model of `strings.Contains(s, substr)`. -/
def contains : GoString → GoString → Bool
  | [], sub => sub.isEmpty
  | x :: xs, sub => hasPrefix (x :: xs) sub || contains xs sub

/-- Model of `strings.TrimPrefix(s, prefix)`. -/
def trimPrefix (s pre : GoString) : GoString :=
  if hasPrefix s pre then s.drop pre.length else s

/-! ## `SplitURI` (utils.go, lines 59-96) -/

/-- Embedding of `SplitURI`: the returned `(address, module, path, error)`. -/
def SplitURI (uri : GoString) : GoString × GoString × GoString × Option Error :=
  if hasPrefix uri "rsync://".toList then
    let first := uri.drop 8
    match indexByte first '/' with
    | none => ([], [], [], some (.text "no module name"))
    | some i =>
      let second := first.drop (i + 1)
      let first := first.take i
      let address := first
      let address := match indexByte first ':' with
        | none => address ++ ":873".toList
        | some _ => address
      match indexByte second '/' with
      | some j => (address, second.take j, second.drop j, none)
      | none => (address, second, [], none)
  else
    ([], [], [], some (.text "format not supported yet"))

/-! ## `SplitURIS` (utils.go, lines 11-56) -/

/-- Value of a run of decimal digits read left to right from `acc`; `none` when
a character is not a digit. -/
def parseDigits : GoString → Nat → Option Nat
  | [], acc => some acc
  | c :: cs, acc =>
    if '0' ≤ c ∧ c ≤ '9' then parseDigits cs (acc * 10 + (c.toNat - '0'.toNat)) else none

/-- Model of `strconv.Atoi` on a 64-bit platform: an optional sign and at least
one decimal digit, the value within the range of `int`. -/
def Atoi (s : GoString) : Except Error Int :=
  let neg := s.head? = some '-'
  let digits := if s.head? = some '-' ∨ s.head? = some '+' then s.drop 1 else s
  if digits = [] then .error (.text "invalid syntax")
  else match parseDigits digits 0 with
    | none => .error (.text "invalid syntax")
    | some n =>
      if neg then
        if n > 2 ^ 63 then .error (.text "value out of range") else .ok (-(n : Int))
      else
        if n ≥ 2 ^ 63 then .error (.text "value out of range") else .ok (n : Int)

/-- Embedding of `SplitURIS`: `(host, port, module, path, error)`, or a panic. -/
def SplitURIS (uri : GoString) : Outcome (GoString × Int × GoString × GoString × Option Error) :=
  if hasPrefix uri "rsync://".toList then
    let first := uri.drop 8
    match indexByte first '/' with
    | none => .panic "No module name"
    | some i =>
      let second := first.drop (i + 1)
      let first := first.take i
      let parsed : Outcome (Int × GoString) :=
        match indexByte first ':' with
        | none => .ret (873, first)
        | some k =>
          match Atoi (first.drop (k + 1)) with
          | .error _ => .panic "Wrong port"
          | .ok port => .ret (port, first.take k)
      match parsed with
      | .panic msg => .panic msg
      | .ret (port, host) =>
        match indexByte second '/' with
        | some j => .ret (host, port, second.take j, second.drop j, none)
        | none => .ret (host, port, second, [], none)
  else
    .panic "No implement yet"

/-- The authority part of an `rsync://` address: what stands between the scheme
and the first `'/'` after it. -/
def authority (uri : GoString) : GoString := (uri.drop 8).takeWhile (fun c => c != '/')

/-! ## `SplitURL` (utils.go, lines 99-118) -/

/-- The two fields of `url.URL` that `SplitURL` reads. -/
structure URL where
  Host : GoString
  Path : GoString
  deriving DecidableEq, Repr

/-- The loop of `strings.genSplit` for a one-byte separator: `k` cuts are still
allowed; the last piece is the unsplit remainder. -/
def splitLoop (sep : Char) : Nat → GoString → List GoString
  | 0, s => [s]
  | k + 1, s =>
    match indexByte s sep with
    | none => [s]
    | some m => s.take m :: splitLoop sep k (s.drop (m + 1))

/-- Model of `strings.SplitN(s, sep, n)` for a one-byte separator and `n ≥ 0`. -/
def SplitN (s : GoString) (sep : Char) (n : Nat) : List GoString :=
  if n = 0 then [] else splitLoop sep (min n (s.length + 1) - 1) s

/-- Embedding of `SplitURL`: `(hostport, module, path, error)`, or the run-time
panic of `split[1]` on a one-element slice. -/
def SplitURL (url : URL) : Outcome (GoString × GoString × GoString × Option Error) :=
  let hostport := url.Host
  let hostport := if !contains hostport ":".toList then hostport ++ ":873".toList else hostport
  let split := SplitN url.Path '/' 3
  if split.length < 1 then
    .ret ([], [], [], some (.text "no module name"))
  else
    match split[1]? with
    | none => .panic "runtime error: index out of range [1] with length 1"
    | some module =>
      let path := if h : split.length > 2 then split.get ⟨2, h⟩ else []
      .ret (hostport, module, path, none)

/-! ## `TrimPrepath` (utils.go, lines 121-130) -/

/-- Embedding of `TrimPrepath`. -/
def TrimPrepath (prepath : GoString) : GoString :=
  let ppath := prepath
  let ppath := if !hasSuffix ppath "/".toList then ppath ++ "/".toList else ppath
  trimPrefix ppath "/".toList

/-! ## `longestMatch` (utils.go, lines 132-140) -/

/-- The `for` loop of `longestMatch`, started at index `i`; `fuel` bounds the
number of iterations (the loop makes at most `256 - i`). -/
def longestMatchLoop (left right : List Nat) : Nat → Nat → Nat
  | 0, i => i
  | fuel + 1, i =>
    if h : i < left.length ∧ i < right.length ∧ i < 256 then
      if left.get ⟨i, h.1⟩ ≠ right.get ⟨i, h.2.1⟩ then i
      else longestMatchLoop left right fuel (i + 1)
    else i

/-- Embedding of `longestMatch`. -/
def longestMatch (left right : List Nat) : Nat := longestMatchLoop left right 256 0

/-- Length of the longest common prefix of two byte sequences (the
specification's "longest common byte-run", before the cap). -/
def commonPrefixLen : List Nat → List Nat → Nat
  | a :: as, b :: bs => if a = b then commonPrefixLen as bs + 1 else 0
  | _, _ => 0

/-! ## Bytes of a string, MD4 and base64 (used by `SocketClient`) -/

/-- UTF-8 encoding of one code point. -/
def utf8Encode (c : Char) : List Nat :=
  let n := c.toNat
  if n < 0x80 then [n]
  else if n < 0x800 then [0xC0 + n / 64, 0x80 + n % 64]
  else if n < 0x10000 then [0xE0 + n / 4096, 0x80 + n / 64 % 64, 0x80 + n % 64]
  else [0xF0 + n / 262144, 0x80 + n / 4096 % 64, 0x80 + n / 64 % 64, 0x80 + n % 64]

/-- The conversion `[]byte(s)`: the UTF-8 bytes of a string. -/
def toBytes (s : GoString) : List Nat := s.flatMap utf8Encode

/-- Rotation of a 32-bit word to the left (`bits.RotateLeft32`). -/
def rotl32 (x s : Nat) : Nat := ((x <<< s) ||| (x >>> (32 - s))) % 2 ^ 32

/-- The four 32-bit words of the MD4 state. -/
structure md4State where
  a : Nat
  b : Nat
  c : Nat
  d : Nat
  deriving DecidableEq, Repr

/-- One of the three rounds of the MD4 block function: sixteen steps, each
`a += f(b,c,d) + X[x] + k; a = rotl(a, s); a, b, c, d = d, a, b, c`. -/
def md4Round (f : Nat → Nat → Nat → Nat) (k : Nat) (shift xIndex X : List Nat)
    (st : md4State) : md4State :=
  (List.range 16).foldl (fun st i =>
    let x := xIndex.getD i 0
    let s := shift.getD (i % 4) 0
    let a := (st.a + f st.b st.c st.d + X.getD x 0 + k) % 2 ^ 32
    let a := rotl32 a s
    { a := st.d, b := a, c := st.b, d := st.c }) st

/-- The MD4 block function on one 64-byte chunk `p`. -/
def md4Chunk (st : md4State) (p : List Nat) : md4State :=
  let X := (List.range 16).map (fun i =>
    (p.getD (4 * i) 0 ||| p.getD (4 * i + 1) 0 <<< 8 ||| p.getD (4 * i + 2) 0 <<< 16
      ||| p.getD (4 * i + 3) 0 <<< 24) % 2 ^ 32)
  let r1 := md4Round (fun b c d => ((c ^^^ d) &&& b) ^^^ d) 0 [3, 7, 11, 19]
    (List.range 16) X st
  let r2 := md4Round (fun b c d => (b &&& c) ||| (b &&& d) ||| (c &&& d)) 0x5a827999
    [3, 5, 9, 13] [0, 4, 8, 12, 1, 5, 9, 13, 2, 6, 10, 14, 3, 7, 11, 15] X r1
  let r3 := md4Round (fun b c d => b ^^^ c ^^^ d) 0x6ed9eba1 [3, 9, 11, 15]
    [0, 8, 4, 12, 2, 10, 6, 14, 1, 9, 5, 13, 3, 11, 7, 15] X r2
  { a := (r3.a + st.a) % 2 ^ 32, b := (r3.b + st.b) % 2 ^ 32,
    c := (r3.c + st.c) % 2 ^ 32, d := (r3.d + st.d) % 2 ^ 32 }

/-- The MD4 padding: `0x80`, zeros up to 56 modulo 64, then the bit length as
eight little-endian bytes. -/
def md4Pad (msg : List Nat) : List Nat :=
  let len := msg.length
  let padLen := if len % 64 < 56 then 56 - len % 64 else 64 + 56 - len % 64
  msg ++ (0x80 :: List.replicate (padLen - 1) 0)
    ++ (List.range 8).map (fun i => (((len * 8) % 2 ^ 64) >>> (8 * i)) % 256)

/-- Four little-endian bytes of a 32-bit word. -/
def le32 (w : Nat) : List Nat :=
  [w % 256, (w >>> 8) % 256, (w >>> 16) % 256, (w >>> 24) % 256]

/-- Model of the hash of `golang.org/x/crypto/md4` (RFC 1320): the 16-byte digest
of everything written to the hash, as `h.Sum(nil)` returns it. -/
def md4Sum (msg : List Nat) : List Nat :=
  let p := md4Pad msg
  let st := (List.range (p.length / 64)).foldl
    (fun st n => md4Chunk st ((p.drop (64 * n)).take 64))
    { a := 0x67452301, b := 0xefcdab89, c := 0x98badcfe, d := 0x10325476 }
  le32 st.a ++ le32 st.b ++ le32 st.c ++ le32 st.d

/-- The alphabet of `base64.StdEncoding`. -/
def encodeStd : GoString :=
  "ABCDEFGHIJKLMNOPQRSTUVWXYZabcdefghijklmnopqrstuvwxyz0123456789+/".toList

/-- The character for the low six bits of `v` (`enc.encode[v&0x3F]`). -/
def b64Char (v : Nat) : Char := encodeStd.getD (v &&& 0x3F) 'A'

/-- Model of `base64.RawStdEncoding.EncodeToString`: groups of three bytes give
four characters, a remainder of one or two bytes gives two or three, and no
padding is written. -/
def RawStdEncode : List Nat → GoString
  | a :: b :: c :: rest =>
    let val := a <<< 16 ||| b <<< 8 ||| c
    b64Char (val >>> 18) :: b64Char (val >>> 12) :: b64Char (val >>> 6) :: b64Char val
      :: RawStdEncode rest
  | [a, b] =>
    let val := a <<< 16 ||| b <<< 8
    [b64Char (val >>> 18), b64Char (val >>> 12), b64Char (val >>> 6)]
  | [a] =>
    let val := a <<< 16
    [b64Char (val >>> 18), b64Char (val >>> 12)]
  | [] => []

/-- The challenge response of `SocketClient` (client.go, lines 134-147): the MD4
hash is fed four zero bytes, the password and the challenge, and its digest is
encoded with `base64.RawStdEncoding`. -/
def respond (password challenge : GoString) : GoString :=
  let h : List Nat := []
  let h := h ++ [0, 0, 0, 0]
  let h := h ++ toBytes password
  let h := h ++ toBytes challenge
  RawStdEncode (md4Sum h)

/-! ## `fmt.Sscanf(res, "@RSYNCD: AUTHREQD %s", &challenge)` -/

/-- The space table of package `fmt` (`isSpace`). -/
def isSpace (r : Char) : Bool :=
  let n := r.toNat
  (0x09 ≤ n && n ≤ 0x0d) || n == 0x20 || n == 0x85 || n == 0xA0 || n == 0x1680 ||
    (0x2000 ≤ n && n ≤ 0x200a) || n == 0x2028 || n == 0x2029 || n == 0x202f ||
    n == 0x205f || n == 0x3000

/-- A literal character of the format: the next input character must be it. -/
def scanLit (c : Char) : GoString → Except Error GoString
  | [] => .error (.text "unexpected EOF")
  | x :: xs => if x = c then .ok xs else .error (.text "input does not match format")

/-- A run of literal characters of the format. -/
def scanLits : GoString → GoString → Except Error GoString
  | [], inp => .ok inp
  | c :: cs, inp =>
    match scanLit c inp with
    | .error e => .error e
    | .ok inp => scanLits cs inp

/-- Input spaces other than newline are consumed. -/
def skipBlanks : GoString → GoString
  | [] => []
  | x :: xs => if isSpace x && x != '\n' then skipBlanks xs else x :: xs

/-- A space of the format that does not follow a newline: it matches the end
of the input, or a space of the input that is not a newline together with the
spaces other than newline that follow it. -/
def scanFmtSpace : GoString → Except Error GoString
  | [] => .ok []
  | x :: xs =>
    if !isSpace x then .error (.text "expected space in input to match format")
    else if x = '\n' then .error (.text "newline in input does not match format")
    else .ok (skipBlanks xs)

/-- The scanner's `SkipSpace` under `Sscanf`, where a newline is not a space but
an error (a carriage return is skipped like any space, so `"\r\n"` ends in the
same error). -/
def SkipSpace : GoString → Except Error GoString
  | [] => .ok []
  | r :: rest =>
    if r = '\n' then .error (.text "unexpected newline")
    else if !isSpace r then .ok (r :: rest)
    else SkipSpace rest

/-- Model of `fmt.Sscanf(res, "@RSYNCD: AUTHREQD %s", &challenge)`: the literals
and spaces of the format, then the verb `%s`, which skips spaces, requires input
and reads the next word (up to the next space or the end). -/
def SscanfChallenge (res : GoString) : Except Error GoString :=
  match scanLits "@RSYNCD:".toList res with
  | .error e => .error e
  | .ok inp =>
  match scanFmtSpace inp with
  | .error e => .error e
  | .ok inp =>
  match scanLits "AUTHREQD".toList inp with
  | .error e => .error e
  | .ok inp =>
  match scanFmtSpace inp with
  | .error e => .error e
  | .ok inp =>
  match SkipSpace inp with
  | .error e => .error e
  | .ok inp =>
  match SkipSpace inp with
  | .error e => .error e
  | .ok inp =>
  if inp = [] then .error .eof
  else
  match SkipSpace inp with
  | .error e => .error e
  | .ok inp => .ok (inp.takeWhile (fun r => !isSpace r))

/-! ## `fmt.Sscanf(versionStr, "@RSYNCD: %d.%d\n", &remoteProtocol, &remoteProtocolSub)` -/

/-- The characters `scanNumber` accepts for the verb `%d`: the decimal digits
and the underscore. -/
def isNumberChar (c : Char) : Bool := ('0' ≤ c && c ≤ '9') || c == '_'

/-- The verb `%d`: spaces are skipped, input is required, an optional sign and
one or more number characters are read, and the token is converted by
`strconv.ParseInt(tok, 10, 64)`, which refuses the underscore and a value out
of range.  Returns the value and the input left. -/
def scanInt (inp : GoString) : Except Error (Int × GoString) :=
  match SkipSpace inp with
  | .error e => .error e
  | .ok inp =>
  match SkipSpace inp with
  | .error e => .error e
  | .ok inp =>
  if inp = [] then .error .eof
  else
  let sign := (inp.take 1).filter (fun c => c == '+' || c == '-')
  let inp := inp.drop sign.length
  if inp = [] then .error .eof
  else
  let tok := inp.takeWhile isNumberChar
  if tok = [] then .error (.text "expected integer")
  else
  match Atoi (sign ++ tok) with
  | .error e => .error e
  | .ok i => .ok (i, inp.dropWhile isNumberChar)

/-- A newline of the format: it matches spaces of the input other than newline
followed by a newline or by the end of the input. -/
def scanFmtNewline (inp : GoString) : Except Error GoString :=
  match skipBlanks inp with
  | [] => .ok []
  | x :: xs =>
    if x = '\n' then .ok xs else .error (.text "newline in format does not match input")

/-- Model of `fmt.Sscanf(versionStr, "@RSYNCD: %d.%d\n", &remoteProtocol,
&remoteProtocolSub)`: the two integers as far as they were assigned (zero
otherwise) and the error. -/
def SscanfVersion (versionStr : GoString) : Int × Int × Option Error :=
  match scanLits "@RSYNCD:".toList versionStr with
  | .error e => (0, 0, some e)
  | .ok inp =>
  match scanFmtSpace inp with
  | .error e => (0, 0, some e)
  | .ok inp =>
  match scanInt inp with
  | .error e => (0, 0, some e)
  | .ok (major, inp) =>
  match scanLit '.' inp with
  | .error e => (major, 0, some e)
  | .ok inp =>
  match scanInt inp with
  | .error e => (major, 0, some e)
  | .ok (minor, inp) =>
  match scanFmtNewline inp with
  | .error e => (major, minor, some e)
  | .ok _ => (major, minor, none)

/-- A record handed to the logger: the level, the message and the values
attached to it. -/
inductive LogRecord where
  | error (msg : String) (err : Error) : LogRecord
  | debug (msg : String) (vals : List Int) : LogRecord
  deriving DecidableEq, Repr

/-! ## The connection and `SocketClient` (client.go, lines 58-197) -/

/-- Modelled from the spec: the token `"@RSYNCD: OK"` that ends the wait
(constant `RSYNCD_OK`, declared outside the given sources). -/
def RSYNCD_OK : GoString := "@RSYNCD: OK".toList

/-- Modelled from the spec: the token `"@RSYNCD: AUTHREQD "` of a challenge line
(constant `RSYNC_AUTHREQD`, declared outside the given sources). -/
def RSYNC_AUTHREQD : GoString := "@RSYNCD: AUTHREQD ".toList

/-- The constants `RSYNC_VERSION` and `SAMPLE_ARGS` of the package, whose values
are declared outside the given sources. -/
structure Consts where
  RSYNC_VERSION : GoString
  SAMPLE_ARGS : GoString

structure ClientAuth where
  Username : GoString
  Password : GoString
  deriving DecidableEq, Repr

abbrev ExclusionList := List GoString

/-- The fields `Auth` and `ExclusionList` of `clientOptions`; what goes to the
field `Logger` is collected in the result of `SocketClient`. -/
structure clientOptions where
  Auth : Option ClientAuth
  ExclusionList : ExclusionList
  deriving DecidableEq, Repr

abbrev ClientOption := clientOptions → clientOptions

def WithClientAuth (username password : GoString) : ClientOption :=
  fun c => { c with Auth := some { Username := username, Password := password } }

def WithExclusionList (exclusionList : ExclusionList) : ClientOption :=
  fun c => { c with ExclusionList := exclusionList }

/-- The options after every `opt(&co)` of lines 59-67 has run. -/
def applyOpts (opts : List ClientOption) : clientOptions :=
  opts.foldl (fun co opt => opt co) { Auth := none, ExclusionList := [] }

/-- What `net.Dial` hands back, seen from the client: whether the transport lets
a write through (given the writes made before and the bytes to write), the
results of the coming `readLine` calls (the server script), and the result of
`ReadInt` for the seed. -/
structure Socket where
  fail : List (List Nat) → List Nat → Option Error
  lines : List (Except Error GoString)
  seed : Except Error Int

/-- The writing side of a `Conn`, with the writes made so far. -/
structure Writer where
  fail : List (List Nat) → List Nat → Option Error
  sent : List (List Nat)

/-- The reading side of a `Conn`; `mux` tells whether the reader has been
replaced by the multiplexed one. -/
structure Reader where
  lines : List (Except Error GoString)
  seed : Except Error Int
  mux : Bool

structure Conn where
  Writer : Writer
  Reader : Reader

/-- `conn.Write(p)`: a write the transport rejects returns its error and is not
recorded; otherwise the bytes are appended to what was sent. -/
def Writer.Write (w : Writer) (p : List Nat) : Writer × Option Error :=
  match w.fail w.sent p with
  | some e => (w, some e)
  | none => ({ w with sent := w.sent ++ [p] }, none)

/-- Modelled from the spec: `readLine` (declared outside the given sources)
returns the next line of the stream and fails once the stream is closed, here
when the script is exhausted. -/
def readLine : List (Except Error GoString) →
    Except Error GoString × List (Except Error GoString)
  | [] => (.error .eof, [])
  | r :: rest => (r, rest)

/-- How the wait for `@RSYNCD: OK` ends: `brk` is the `break` of the loop, with
the lines still unread; `ret` is a `return nil, err` from inside the loop. -/
inductive Loop where
  | brk (w : Writer) (rest : List (Except Error GoString)) : Loop
  | ret (w : Writer) (e : Error) : Loop

/-- The `for` loop of lines 110-155.  Every iteration reads one line, so the
recursion is on the lines still to come; on the empty script `readLine` fails
with the end of the stream. -/
def waitLoop (auth : Option ClientAuth) :
    List (Except Error GoString) → Writer → Loop
  | [], w => .ret w .eof
  | .error e :: _, w => .ret w e
  | .ok res :: rest, w =>
    if contains res RSYNCD_OK then .brk w rest
    else if contains res RSYNC_AUTHREQD then
      match auth with
      | none => .ret w (.text "server requires auth")
      | some a =>
        match SscanfChallenge res with
        | .error _ => .ret w (.text "failed to parse challenge")
        | .ok challenge =>
          let buf := toBytes (a.Username ++ " ".toList ++ respond a.Password challenge
            ++ "\n".toList)
          match w.Write buf with
          | (w, some e) => .ret w e
          | (w, none) => waitLoop auth rest w
    else waitLoop auth rest w

/-- Modelled from the spec: `SendExlusionList` (declared outside the given
sources) writes, for each pattern in order, its length as four little-endian
bytes and then its bytes, and ends with a four-byte zero. -/
def SendExlusionList : ExclusionList → Writer → Writer × Option Error
  | [], w => w.Write (le32 0)
  | pat :: rest, w =>
    match w.Write (le32 ((toBytes pat).length % 2 ^ 32)) with
    | (w, some e) => (w, some e)
    | (w, none) =>
      match w.Write (toBytes pat) with
      | (w, some e) => (w, some e)
      | (w, none) => SendExlusionList rest w

/-- The fields of `Receiver` that `SocketClient` fills in. -/
structure Receiver (FS : Type) where
  Conn : Conn
  Module : GoString
  Path : GoString
  Seed : Int
  Storage : FS

/-- What a call of `SocketClient` leaves behind: the two returned values, the
writes made on the socket and the records handed to the logger. -/
structure Result (FS : Type) where
  recv : Option (Receiver FS)
  err : Option Error
  sent : List (List Nat)
  logs : List LogRecord

/-- Embedding of `SocketClient`.  `dial` stands for `net.Dial("tcp", address)`:
the socket to the server at that address, or an error.  The error of the read
of the version line is dropped (`versionStr` is then the empty string), and the
outcome of its `Sscanf` goes to the logger only. -/
def SocketClient {FS : Type} (k : Consts) (dial : GoString → Except Error Socket)
    (storage : FS) (address module path : GoString) (opts : List ClientOption) :
    Result FS :=
  let co := applyOpts opts
  match dial address with
  | .error e => { recv := none, err := some e, sent := [], logs := [] }
  | .ok skt =>
    let conn : Conn :=
      { Writer := { fail := skt.fail, sent := [] },
        Reader := { lines := skt.lines, seed := skt.seed, mux := false } }
    -- send my version
    match conn.Writer.Write (toBytes k.RSYNC_VERSION) with
    | (w, some e) => { recv := none, err := some e, sent := w.sent, logs := [] }
    | (w, none) =>
      -- receive server's protocol version
      let versionStr : GoString :=
        match (readLine conn.Reader.lines).1 with
        | .ok str => str
        | .error _ => []
      let lines := (readLine conn.Reader.lines).2
      -- recv(version)
      let parsed := SscanfVersion versionStr
      let logs : List LogRecord :=
        (match parsed.2.2 with
          | some e => [LogRecord.error "failed to parse version" e]
          | none => [])
        ++ [LogRecord.debug "remote protocol" [parsed.1, parsed.2.1]]
      -- send mod name
      match w.Write (toBytes (module ++ "\n".toList)) with
      | (w, some e) => { recv := none, err := some e, sent := w.sent, logs := logs }
      | (w, none) =>
        -- wait for '@RSYNCD: OK'
        match waitLoop co.Auth lines w with
        | .ret w e => { recv := none, err := some e, sent := w.sent, logs := logs }
        | .brk w lines =>
          let logs := logs ++ [LogRecord.debug "OK received" []]
          -- send arguments
          match w.Write (toBytes (k.SAMPLE_ARGS ++ module ++ path ++ "\n\n".toList)) with
          | (w, some e) => { recv := none, err := some e, sent := w.sent, logs := logs }
          | (w, none) =>
            -- read int32 as seed
            match conn.Reader.seed with
            | .error e => { recv := none, err := some e, sent := w.sent, logs := logs }
            | .ok seed =>
              let logs := logs ++ [LogRecord.debug "seed received" [seed],
                LogRecord.debug "handshake completed" []]
              -- begin to demux
              let reader : Reader := { lines := lines, seed := conn.Reader.seed, mux := true }
              -- send exclusion list
              match SendExlusionList co.ExclusionList w with
              | (w, some e) => { recv := none, err := some e, sent := w.sent, logs := logs }
              | (w, none) =>
                { recv := some { Conn := { Writer := w, Reader := reader }, Module := module,
                                 Path := path, Seed := seed, Storage := storage },
                  err := none, sent := w.sent, logs := logs }

/-- The loop goes on to the next line after `l`, provided the write of the
response (if any) succeeds: `l` is not the OK line, and if it is a challenge,
credentials are configured and the challenge parses. -/
def passes (auth : Option ClientAuth) (l : GoString) : Bool :=
  !contains l RSYNCD_OK &&
    (!contains l RSYNC_AUTHREQD ||
      (auth.isSome && match SscanfChallenge l with
        | .ok _ => true
        | .error _ => false))

/-- `Padded s s'`: the script `s'` is the script `s` with lines inserted, each
of them a line that was read and contains neither `"@RSYNCD: OK"` nor
`"@RSYNCD: AUTHREQD "`. -/
inductive Padded : List (Except Error GoString) → List (Except Error GoString) → Prop where
  | nil : Padded [] []
  | keep (r : Except Error GoString) {s s' : List (Except Error GoString)} :
      Padded s s' → Padded (r :: s) (r :: s')
  | insert (l : GoString) {s s' : List (Except Error GoString)} :
      contains l RSYNCD_OK = false → contains l RSYNC_AUTHREQD = false →
      Padded s s' → Padded s (Except.ok l :: s')

/-! ## Sample sessions -/

/-- Sample values for the two package constants. -/
def sampleConsts : Consts :=
  { RSYNC_VERSION := "@RSYNCD: 27.0\n".toList,
    SAMPLE_ARGS := "--server\n--sender\n-l\n-p\n-r\n-t\n.\n".toList }

/-- A server that sends its version, two challenges and then the OK line. -/
def twoChallenges : Socket :=
  { fail := fun _ _ => none,
    lines := [.ok "@RSYNCD: 31.0".toList, .ok "@RSYNCD: AUTHREQD abc".toList,
      .ok "@RSYNCD: AUTHREQD def".toList, .ok "@RSYNCD: OK".toList],
    seed := .ok 7 }

/-- A server that greets, sends a message of the day and a challenge. -/
def oneChallenge : Socket :=
  { fail := fun _ _ => none,
    lines := [.ok "@RSYNCD: 31.0".toList, .ok "welcome".toList,
      .ok "@RSYNCD: AUTHREQD abc".toList, .ok "@RSYNCD: OK".toList],
    seed := .ok 7 }

/-- The server of `oneChallenge`, with a line of chatter before the challenge and
another one after it. -/
def oneChallengePadded : Socket :=
  { fail := fun _ _ => none,
    lines := [.ok "@RSYNCD: 31.0".toList, .ok "welcome".toList, .ok "motd".toList,
      .ok "@RSYNCD: AUTHREQD abc".toList, .ok "more".toList, .ok "@RSYNCD: OK".toList],
    seed := .ok 7 }

/-- The server of `twoChallenges`, with a version line that does not parse. -/
def twoChallengesBadVersion : Socket :=
  { fail := fun _ _ => none,
    lines := [.ok "hello".toList, .ok "@RSYNCD: AUTHREQD abc".toList,
      .ok "@RSYNCD: AUTHREQD def".toList, .ok "@RSYNCD: OK".toList],
    seed := .ok 7 }

/-- A server that closes the stream after a message of the day. -/
def closesEarly : Socket :=
  { fail := fun _ _ => none,
    lines := [.ok "@RSYNCD: 31.0".toList, .ok "welcome".toList],
    seed := .ok 7 }

/-! ## Facts about the `strings` models -/

theorem hasPrefix_append (pre s : GoString) : hasPrefix (pre ++ s) pre = true := by
  simp [hasPrefix]

theorem indexByte_eq_none {s : GoString} {c : Char} (h : c ∉ s) : indexByte s c = none := by
  induction s with
  | nil => rfl
  | cons x xs ih =>
    simp only [List.mem_cons, not_or] at h
    have hx : ¬ x = c := fun e => h.1 e.symm
    simp [indexByte, hx, ih h.2]

theorem indexByte_append_cons {s : GoString} {c : Char} (h : c ∉ s) (t : GoString) :
    indexByte (s ++ c :: t) c = some s.length := by
  induction s with
  | nil => simp [indexByte]
  | cons x xs ih =>
    simp only [List.mem_cons, not_or] at h
    have hx : ¬ x = c := fun e => h.1 e.symm
    simp [indexByte, hx, ih h.2]

theorem indexByte_isSome_of_mem {s : GoString} {c : Char} (h : c ∈ s) :
    ∃ i, indexByte s c = some i := by
  induction s with
  | nil => cases h
  | cons x xs ih =>
    by_cases hx : x = c
    · exact ⟨0, by simp [indexByte, hx]⟩
    · have hc : c ∈ xs := by
        rcases List.mem_cons.1 h with e | e
        · exact absurd e.symm hx
        · exact e
      obtain ⟨i, hi⟩ := ih hc
      exact ⟨i + 1, by simp [indexByte, hx, hi]⟩

theorem not_mem_of_indexByte_none : ∀ {s : GoString} {c : Char},
    indexByte s c = none → c ∉ s
  | [], _, _ => by simp
  | x :: xs, c, h => by
    by_cases hx : x = c
    · simp [indexByte, hx] at h
    · simp only [indexByte, hx, if_false, Option.map_eq_none'] at h
      have ih := not_mem_of_indexByte_none h
      simp only [List.mem_cons, not_or]
      exact ⟨fun e => hx e.symm, ih⟩

theorem indexByte_some_split : ∀ {s : GoString} {c : Char} {k : Nat},
    indexByte s c = some k → s = s.take k ++ c :: s.drop (k + 1)
  | [], _, _, h => by simp [indexByte] at h
  | x :: xs, c, k, h => by
    by_cases hx : x = c
    · simp only [indexByte, hx, if_true, Option.some.injEq] at h
      subst h
      simp [hx]
    · simp only [indexByte, hx, if_false, Option.map_eq_some'] at h
      obtain ⟨j, hj, rfl⟩ := h
      have ih := indexByte_some_split hj
      simp only [List.take_succ_cons, List.drop_succ_cons, List.cons_append, List.cons.injEq,
        true_and]
      exact ih

theorem takeWhile_of_indexByte : ∀ {s : GoString} {c : Char} {k : Nat},
    indexByte s c = some k → s.takeWhile (fun x => x != c) = s.take k
  | [], _, _, h => by simp [indexByte] at h
  | x :: xs, c, k, h => by
    by_cases hx : x = c
    · simp only [indexByte, hx, if_true, Option.some.injEq] at h
      subst h
      simp [List.takeWhile, hx]
    · simp only [indexByte, hx, if_false, Option.map_eq_some'] at h
      obtain ⟨j, hj, rfl⟩ := h
      have ih := takeWhile_of_indexByte hj
      have hb : (x != c) = true := by simp [hx]
      simp [List.takeWhile, hb, ih]

theorem contains_of_hasPrefix {s sub : GoString} (h : hasPrefix s sub = true) :
    contains s sub = true := by
  cases s with
  | nil =>
    cases sub with
    | nil => rfl
    | cons y ys => simp [hasPrefix] at h
  | cons x xs => simp [contains, h]

theorem mem_of_contains : ∀ {s sub : GoString}, contains s sub = true →
    ∀ x ∈ sub, x ∈ s
  | [], sub, h, x, hx => by
    cases sub with
    | nil => cases hx
    | cons y ys => simp [contains] at h
  | y :: ys, sub, h, x, hx => by
    simp only [contains, Bool.or_eq_true] at h
    rcases h with h | h
    · have hp : sub <+: y :: ys := List.isPrefixOf_iff_prefix.1 h
      exact hp.subset hx
    · exact List.mem_cons_of_mem _ (mem_of_contains h x hx)

theorem contains_singleton (c : Char) : ∀ (s : GoString), contains s [c] = true ↔ c ∈ s
  | [] => by simp [contains]
  | x :: xs => by
    have ih := contains_singleton c xs
    simp only [contains, hasPrefix, List.isPrefixOf, Bool.or_eq_true, Bool.and_eq_true,
      beq_iff_eq, and_true, ih, List.mem_cons]

/-! ## Facts about a challenge line `"@RSYNCD: AUTHREQD " ++ c` -/

theorem isSpace_blank : isSpace ' ' = true := by decide

theorem challenge_line_not_OK (c : GoString) (hc : ∀ x ∈ c, isSpace x = false) :
    contains (RSYNC_AUTHREQD ++ c) RSYNCD_OK = false := by
  have hsp : ' ' ∉ c := fun h => by
    have := hc ' ' h
    rw [isSpace_blank] at this
    exact Bool.noConfusion this
  have htail : contains c RSYNCD_OK = false := by
    rw [Bool.eq_false_iff]
    intro h
    exact hsp (mem_of_contains h ' ' (by decide))
  simp [RSYNC_AUTHREQD, RSYNCD_OK, contains, hasPrefix, List.isPrefixOf] at htail ⊢
  exact htail

theorem challenge_line_AUTHREQD (c : GoString) :
    contains (RSYNC_AUTHREQD ++ c) RSYNC_AUTHREQD = true :=
  contains_of_hasPrefix (hasPrefix_append _ _)

theorem skipBlanks_of_not_space {x : Char} {xs : GoString} (hx : isSpace x = false) :
    skipBlanks (x :: xs) = x :: xs := by
  simp [skipBlanks, hx]

theorem SkipSpace_of_not_space {x : Char} {xs : GoString} (hx : isSpace x = false) :
    SkipSpace (x :: xs) = .ok (x :: xs) := by
  have hn : x ≠ '\n' := by
    rintro rfl
    exact absurd hx (by decide)
  simp [SkipSpace, hx, hn]

theorem takeWhile_not_space : ∀ (c : GoString), (∀ x ∈ c, isSpace x = false) →
    c.takeWhile (fun r => !isSpace r) = c
  | [], _ => rfl
  | x :: xs, h => by
    have hx : isSpace x = false := h x (List.mem_cons_self _ _)
    have ih := takeWhile_not_space xs (fun y hy => h y (List.mem_cons_of_mem _ hy))
    simp [List.takeWhile, hx, ih]

theorem SscanfChallenge_line (c : GoString) (hne : c ≠ [])
    (hc : ∀ x ∈ c, isSpace x = false) :
    SscanfChallenge (RSYNC_AUTHREQD ++ c) = .ok c := by
  cases c with
  | nil => exact absurd rfl hne
  | cons x xs =>
    have hx : isSpace x = false := hc x (List.mem_cons_self _ _)
    have h1 : scanLits "@RSYNCD:".toList (RSYNC_AUTHREQD ++ x :: xs)
        = .ok (" AUTHREQD ".toList ++ x :: xs) := by
      simp [RSYNC_AUTHREQD, scanLits, scanLit]
    have h2 : scanFmtSpace (" AUTHREQD ".toList ++ x :: xs)
        = .ok ("AUTHREQD ".toList ++ x :: xs) := by
      have e : skipBlanks ('A' :: ("UTHREQD ".toList ++ x :: xs))
          = 'A' :: ("UTHREQD ".toList ++ x :: xs) :=
        skipBlanks_of_not_space (by decide)
      have hb : isSpace ' ' = true := by decide
      simp only [String.toList, List.cons_append, List.nil_append, scanFmtSpace, hb] at e ⊢
      simp [e]
    have h3 : scanLits "AUTHREQD".toList ("AUTHREQD ".toList ++ x :: xs)
        = .ok (' ' :: x :: xs) := by
      simp [scanLits, scanLit]
    have h4 : scanFmtSpace (' ' :: x :: xs) = .ok (x :: xs) := by
      have hb : isSpace ' ' = true := by decide
      simp [scanFmtSpace, hb, skipBlanks_of_not_space hx]
    unfold SscanfChallenge
    rw [h1]
    simp only [h2, h3, h4, SkipSpace_of_not_space hx, takeWhile_not_space _ hc]
    simp

/-! ## Facts about the connection and the wait loop -/

/-- The writes `SendExlusionList` makes when none is rejected. -/
def exclusionWrites (l : ExclusionList) : List (List Nat) :=
  l.flatMap (fun pat => [le32 ((toBytes pat).length % 2 ^ 32), toBytes pat]) ++ [le32 0]

theorem Write_ok (w : Writer) (p : List Nat) (h : ∀ log q, w.fail log q = none) :
    w.Write p = ({ fail := w.fail, sent := w.sent ++ [p] }, none) := by
  simp [Writer.Write, h]

theorem Write_cases (f : List (List Nat) → List Nat → Option Error) (sent : List (List Nat))
    (p : List Nat) :
    (∃ e, f sent p = some e ∧
      Writer.Write { fail := f, sent := sent } p = ({ fail := f, sent := sent }, some e)) ∨
    (f sent p = none ∧
      Writer.Write { fail := f, sent := sent } p = ({ fail := f, sent := sent ++ [p] }, none)) := by
  cases h : f sent p with
  | some e => exact Or.inl ⟨e, rfl, by simp [Writer.Write, h]⟩
  | none => exact Or.inr ⟨rfl, by simp [Writer.Write, h]⟩

theorem SendExlusionList_ok : ∀ (l : ExclusionList) (w : Writer),
    (∀ log q, w.fail log q = none) →
    SendExlusionList l w = ({ fail := w.fail, sent := w.sent ++ exclusionWrites l }, none)
  | [], w, h => by simp [SendExlusionList, exclusionWrites, Write_ok w _ h]
  | pat :: rest, w, h => by
    have ih := SendExlusionList_ok rest
      { fail := w.fail, sent := w.sent ++ [le32 ((toBytes pat).length % 2 ^ 32)] ++ [toBytes pat] }
      h
    simp only [SendExlusionList, Write_ok w _ h]
    rw [Write_ok _ _ (by exact h)]
    refine Eq.trans ih ?_
    simp [exclusionWrites]

/-- With credentials `(u, pw)` and a transport that accepts every write, the
loop answers the challenge lines one by one and breaks at the OK line. -/
theorem waitLoop_challenges (u pw : GoString) : ∀ (cs : List GoString) (ok : GoString)
    (rest : List (Except Error GoString)) (w : Writer),
    (∀ c ∈ cs, c ≠ [] ∧ ∀ x ∈ c, isSpace x = false) →
    contains ok RSYNCD_OK = true →
    (∀ log q, w.fail log q = none) →
    waitLoop (some { Username := u, Password := pw })
        (cs.map (fun c => Except.ok (RSYNC_AUTHREQD ++ c)) ++ Except.ok ok :: rest) w
      = .brk { fail := w.fail,
               sent := w.sent ++ cs.map (fun c =>
                 toBytes (u ++ " ".toList ++ respond pw c ++ "\n".toList)) } rest
  | [], ok, rest, w, _, hok, _ => by
    simp [waitLoop, hok]
  | c :: cs, ok, rest, w, hcs, hok, hw => by
    have hc := hcs c (List.mem_cons_self _ _)
    have ih := waitLoop_challenges u pw cs ok rest
      { fail := w.fail,
        sent := w.sent ++ [toBytes (u ++ " ".toList ++ respond pw c ++ "\n".toList)] }
      (fun d hd => hcs d (List.mem_cons_of_mem _ hd)) hok hw
    simp only [List.map_cons, List.cons_append, waitLoop, challenge_line_not_OK c hc.2,
      challenge_line_AUTHREQD c, SscanfChallenge_line c hc.1 hc.2, Write_ok w _ hw,
      Bool.false_eq_true, if_false, if_true]
    refine Eq.trans ih ?_
    simp

/-- Without credentials the loop never writes, and on a script that shows a
challenge line before any OK line it returns an error. -/
theorem waitLoop_no_auth : ∀ (pre : List (Except Error GoString)) (l : GoString)
    (rest : List (Except Error GoString)) (w : Writer),
    (∀ s, Except.ok s ∈ pre → contains s RSYNCD_OK = false) →
    contains l RSYNCD_OK = false → contains l RSYNC_AUTHREQD = true →
    ∃ e, waitLoop none (pre ++ Except.ok l :: rest) w = .ret w e ∧
      ((∀ r ∈ pre, ∃ s, r = Except.ok s ∧ contains s RSYNC_AUTHREQD = false) →
        e = .text "server requires auth")
  | [], l, rest, w, _, h1, h2 => by
    exact ⟨.text "server requires auth", by simp [waitLoop, h1, h2], fun _ => rfl⟩
  | .error e :: pre, l, rest, w, _, _, _ => by
    refine ⟨e, by simp [waitLoop], ?_⟩
    intro h
    obtain ⟨s, hs, _⟩ := h (.error e) (List.mem_cons_self _ _)
    cases hs
  | .ok s :: pre, l, rest, w, hpre, h1, h2 => by
    have hs : contains s RSYNCD_OK = false := hpre s (List.mem_cons_self _ _)
    obtain ⟨e, he, hspec⟩ := waitLoop_no_auth pre l rest w
      (fun t ht => hpre t (List.mem_cons_of_mem _ ht)) h1 h2
    by_cases ha : contains s RSYNC_AUTHREQD = true
    · refine ⟨.text "server requires auth", by simp [waitLoop, hs, ha], fun _ => rfl⟩
    · refine ⟨e, by simp [waitLoop, hs, ha, he], ?_⟩
      intro h
      exact hspec (fun r hr => h r (List.mem_cons_of_mem _ hr))

/-- On a script whose reads fail before any line containing `"@RSYNCD: OK"`, the
loop ends with a `return nil, err`, whatever the credentials and whatever the
transport does with the writes. -/
theorem waitLoop_no_OK (auth : Option ClientAuth) : ∀ (pre : List GoString)
    (tail : List (Except Error GoString)) (w : Writer),
    (∀ l ∈ pre, contains l RSYNCD_OK = false) →
    (tail = [] ∨ ∃ e rest, tail = Except.error e :: rest) →
    ∃ w' e', waitLoop auth (pre.map Except.ok ++ tail) w = .ret w' e'
  | [], tail, w, _, ht => by
    rcases ht with rfl | ⟨e, rest, rfl⟩
    · exact ⟨w, .eof, by simp [waitLoop]⟩
    · exact ⟨w, e, by simp [waitLoop]⟩
  | l :: pre, tail, w, hpre, ht => by
    have hok := hpre l (List.mem_cons_self _ _)
    have ih := fun w => waitLoop_no_OK auth pre tail w
      (fun t ht => hpre t (List.mem_cons_of_mem _ ht)) ht
    simp only [List.map_cons, List.cons_append, waitLoop, hok, Bool.false_eq_true, if_false]
    by_cases ha : contains l RSYNC_AUTHREQD = true
    · simp only [ha, if_true]
      cases auth with
      | none => exact ⟨w, _, rfl⟩
      | some a =>
        cases hp : SscanfChallenge l with
        | error err => exact ⟨w, _, rfl⟩
        | ok challenge =>
          simp only []
          rcases hW : w.Write (toBytes (a.Username ++ " ".toList
            ++ respond a.Password challenge ++ "\n".toList)) with ⟨w2, _ | e2⟩
          · simp only []
            exact waitLoop_no_OK (some a) pre tail w2
              (fun t ht => hpre t (List.mem_cons_of_mem _ ht)) ht
          · exact ⟨w2, e2, rfl⟩
    · simp only [ha, if_false]
      exact ih w

/-- When every write is accepted, the loop passes over the lines of `pre` and
returns the error of the read that fails after them. -/
theorem waitLoop_read_failure (auth : Option ClientAuth) : ∀ (pre : List GoString)
    (tail : List (Except Error GoString)) (e : Error) (w : Writer),
    (∀ l ∈ pre, passes auth l = true) →
    ((tail = [] ∧ e = .eof) ∨ ∃ rest, tail = Except.error e :: rest) →
    (∀ log q, w.fail log q = none) →
    ∃ w', waitLoop auth (pre.map Except.ok ++ tail) w = .ret w' e
  | [], tail, e, w, _, ht, _ => by
    rcases ht with ⟨rfl, rfl⟩ | ⟨rest, rfl⟩
    · exact ⟨w, by simp [waitLoop]⟩
    · exact ⟨w, by simp [waitLoop]⟩
  | l :: pre, tail, e, w, hpre, ht, hw => by
    have hl := hpre l (List.mem_cons_self _ _)
    have hpre' : ∀ l ∈ pre, passes auth l = true :=
      fun t ht => hpre t (List.mem_cons_of_mem _ ht)
    simp only [passes, Bool.and_eq_true, Bool.not_eq_true', Bool.or_eq_true] at hl
    obtain ⟨hok, hrest⟩ := hl
    simp only [List.map_cons, List.cons_append, waitLoop, hok, Bool.false_eq_true, if_false]
    rcases hrest with hno | ⟨hsome, hparse⟩
    · simp only [hno, Bool.false_eq_true, if_false]
      exact waitLoop_read_failure auth pre tail e w hpre' ht hw
    · by_cases ha : contains l RSYNC_AUTHREQD = true
      · simp only [ha, if_true]
        cases auth with
        | none => simp at hsome
        | some a =>
          cases hp : SscanfChallenge l with
          | error err => simp [hp] at hparse
          | ok challenge =>
            simp only [Write_ok w _ hw]
            exact waitLoop_read_failure (some a) pre tail e _ hpre' ht hw
      · simp only [ha, if_false]
        exact waitLoop_read_failure auth pre tail e w hpre' ht hw

theorem Write_sent (w : Writer) (p : List Nat) :
    ∃ t, (w.Write p).1.sent = w.sent ++ t := by
  unfold Writer.Write
  cases w.fail w.sent p with
  | none => exact ⟨[p], rfl⟩
  | some e => exact ⟨[], by simp⟩

/-- The loop only adds to what was sent. -/
theorem waitLoop_sent (auth : Option ClientAuth) : ∀ (lines : List (Except Error GoString))
    (w : Writer),
    (∀ w' rest, waitLoop auth lines w = .brk w' rest → ∃ t, w'.sent = w.sent ++ t) ∧
    (∀ w' e, waitLoop auth lines w = .ret w' e → ∃ t, w'.sent = w.sent ++ t)
  | [], w => by
    simp only [waitLoop]
    exact ⟨fun _ _ h => (by cases h), fun _ _ h => (by cases h; exact ⟨[], by simp⟩)⟩
  | .error e :: _, w => by
    simp only [waitLoop]
    exact ⟨fun _ _ h => (by cases h), fun _ _ h => (by cases h; exact ⟨[], by simp⟩)⟩
  | .ok res :: rest, w => by
    have ih := waitLoop_sent auth rest
    simp only [waitLoop]
    by_cases hok : contains res RSYNCD_OK = true
    · simp only [hok, if_true]
      exact ⟨fun _ _ h => (by cases h; exact ⟨[], by simp⟩), fun _ _ h => (by cases h)⟩
    · simp only [hok, if_false]
      by_cases ha : contains res RSYNC_AUTHREQD = true
      · simp only [ha, if_true]
        cases auth with
        | none => exact ⟨fun _ _ h => (by cases h), fun _ _ h => (by cases h; exact ⟨[], by simp⟩)⟩
        | some a =>
          cases hp : SscanfChallenge res with
          | error err =>
            exact ⟨fun _ _ h => (by cases h), fun _ _ h => (by cases h; exact ⟨[], by simp⟩)⟩
          | ok challenge =>
            simp only []
            obtain ⟨t, ht⟩ := Write_sent w (toBytes (a.Username ++ " ".toList
              ++ respond a.Password challenge ++ "\n".toList))
            rcases hW : w.Write (toBytes (a.Username ++ " ".toList
              ++ respond a.Password challenge ++ "\n".toList)) with ⟨w2, _ | e2⟩
            · rw [hW] at ht
              simp only [] at ht ⊢
              have ih2 := waitLoop_sent (some a) rest w2
              refine ⟨fun w' r h => ?_, fun w' e h => ?_⟩
              · obtain ⟨t', ht'⟩ := ih2.1 w' r h
                exact ⟨t ++ t', by rw [ht', ht, List.append_assoc]⟩
              · obtain ⟨t', ht'⟩ := ih2.2 w' e h
                exact ⟨t ++ t', by rw [ht', ht, List.append_assoc]⟩
            · rw [hW] at ht
              simp only [] at ht ⊢
              exact ⟨fun _ _ h => (by cases h), fun _ _ h => (by cases h; exact ⟨t, ht⟩)⟩
      · simp only [ha, if_false]
        exact ih w

theorem SendExlusionList_sent : ∀ (l : ExclusionList) (w : Writer),
    ∃ t, (SendExlusionList l w).1.sent = w.sent ++ t
  | [], w => by
    simp only [SendExlusionList]
    exact Write_sent w _
  | pat :: rest, w => by
    simp only [SendExlusionList]
    obtain ⟨t1, ht1⟩ := Write_sent w (le32 ((toBytes pat).length % 2 ^ 32))
    rcases hW1 : w.Write (le32 ((toBytes pat).length % 2 ^ 32)) with ⟨w1, _ | e1⟩
    · rw [hW1] at ht1
      simp only [] at ht1 ⊢
      obtain ⟨t2, ht2⟩ := Write_sent w1 (toBytes pat)
      rcases hW2 : w1.Write (toBytes pat) with ⟨w2, _ | e2⟩
      · rw [hW2] at ht2
        simp only [] at ht2 ⊢
        obtain ⟨t3, ht3⟩ := SendExlusionList_sent rest w2
        exact ⟨t1 ++ t2 ++ t3, by rw [ht3, ht2, ht1]; simp⟩
      · rw [hW2] at ht2
        simp only [] at ht2 ⊢
        exact ⟨t1 ++ t2, by rw [ht2, ht1]; simp⟩
    · rw [hW1] at ht1
      simp only [] at ht1 ⊢
      exact ⟨t1, ht1⟩

/-- Lines that contain neither token leave the loop where it was: a script and
its padding give the same outcome, as long as the script shows no OK line. -/
theorem waitLoop_padded (auth : Option ClientAuth) {pre pre' : List (Except Error GoString)}
    (hpad : Padded pre pre') :
    (∀ t, Except.ok t ∈ pre → contains t RSYNCD_OK = false) →
    ∀ (post : List (Except Error GoString)) (w : Writer),
      waitLoop auth (pre' ++ post) w = waitLoop auth (pre ++ post) w := by
  induction hpad with
  | nil => intro _ post w; rfl
  | keep r _ ih =>
    intro hpre post w
    have ih' := ih (fun t ht => hpre t (List.mem_cons_of_mem _ ht))
    cases r with
    | error e => simp [waitLoop]
    | ok t =>
      have hok := hpre t (List.mem_cons_self _ _)
      simp only [List.cons_append, waitLoop, hok, Bool.false_eq_true, if_false, List.append_eq,
        ih']
  | insert l h1 h2 _ ih =>
    intro hpre post w
    simp only [List.cons_append, waitLoop, h1, h2, Bool.false_eq_true, if_false]
    exact ih hpre post w

/-! ## Facts about `longestMatch` -/

theorem commonPrefixLen_le_left : ∀ (a b : List Nat), commonPrefixLen a b ≤ a.length
  | [], _ => by simp [commonPrefixLen]
  | _ :: _, [] => by simp [commonPrefixLen]
  | x :: as, y :: bs => by
    have ih := commonPrefixLen_le_left as bs
    by_cases hxy : x = y <;> simp [commonPrefixLen, hxy, ih]

theorem commonPrefixLen_le_right : ∀ (a b : List Nat), commonPrefixLen a b ≤ b.length
  | [], _ => by simp [commonPrefixLen]
  | _ :: _, [] => by simp [commonPrefixLen]
  | x :: as, y :: bs => by
    have ih := commonPrefixLen_le_right as bs
    by_cases hxy : x = y <;> simp [commonPrefixLen, hxy, ih]

theorem commonPrefixLen_agree : ∀ (a b : List Nat) (j : Nat),
    j < commonPrefixLen a b → a[j]? = b[j]?
  | [], _, j => by simp [commonPrefixLen]
  | _ :: _, [], j => by simp [commonPrefixLen]
  | x :: as, y :: bs, j => by
    by_cases hxy : x = y
    · simp only [commonPrefixLen, hxy, if_true]
      intro hj
      cases j with
      | zero => simp
      | succ k =>
        have := commonPrefixLen_agree as bs k (by omega)
        simpa using this
    · simp [commonPrefixLen, hxy]

theorem commonPrefixLen_maximal : ∀ (a b : List Nat),
    commonPrefixLen a b = a.length ∨ commonPrefixLen a b = b.length ∨
      a[commonPrefixLen a b]? ≠ b[commonPrefixLen a b]?
  | [], _ => by simp [commonPrefixLen]
  | _ :: _, [] => by simp [commonPrefixLen]
  | x :: as, y :: bs => by
    by_cases hxy : x = y
    · simp only [commonPrefixLen, hxy, if_true, List.length_cons, Nat.add_right_cancel_iff,
        List.getElem?_cons_succ]
      exact commonPrefixLen_maximal as bs
    · simp [commonPrefixLen, hxy]

theorem commonPrefixLen_drop {left right : List Nat} {i : Nat}
    (hl : i < left.length) (hr : i < right.length) :
    commonPrefixLen (left.drop i) (right.drop i)
      = if left.get ⟨i, hl⟩ = right.get ⟨i, hr⟩ then
          commonPrefixLen (left.drop (i + 1)) (right.drop (i + 1)) + 1
        else 0 := by
  rw [List.drop_eq_getElem_cons hl, List.drop_eq_getElem_cons hr]
  simp [commonPrefixLen]

theorem commonPrefixLen_nil_right (a : List Nat) : commonPrefixLen a [] = 0 := by
  cases a <;> simp [commonPrefixLen]

theorem commonPrefixLen_comm : ∀ (a b : List Nat),
    commonPrefixLen a b = commonPrefixLen b a
  | [], [] => rfl
  | [], _ :: _ => by simp [commonPrefixLen]
  | _ :: _, [] => by simp [commonPrefixLen]
  | x :: as, y :: bs => by
    have ih := commonPrefixLen_comm as bs
    by_cases hxy : x = y
    · simp [commonPrefixLen, hxy, ih]
    · have hyx : ¬ y = x := fun e => hxy e.symm
      simp [commonPrefixLen, hxy, hyx]

/-- The loop computes the capped common-prefix length, whatever fuel it is given
beyond the `256 - i` iterations it can make. -/
theorem longestMatchLoop_eq (left right : List Nat) : ∀ (fuel i : Nat),
    256 ≤ i + fuel → i ≤ 256 →
    longestMatchLoop left right fuel i
      = min (i + commonPrefixLen (left.drop i) (right.drop i)) 256
  | 0, i, h1, h2 => by
    have : i = 256 := by omega
    subst this
    simp [longestMatchLoop]
  | fuel + 1, i, h1, h2 => by
    unfold longestMatchLoop
    by_cases hc : i < left.length ∧ i < right.length ∧ i < 256
    · rw [dif_pos hc, commonPrefixLen_drop hc.1 hc.2.1]
      by_cases he : left.get ⟨i, hc.1⟩ = right.get ⟨i, hc.2.1⟩
      · have ih := longestMatchLoop_eq left right fuel (i + 1) (by omega) (by omega)
        simp only [ne_eq, he, not_true_eq_false, if_false, if_true]
        rw [ih]
        congr 1
        omega
      · simp only [ne_eq, he, not_false_eq_true, if_true, if_false]
        omega
    · rw [dif_neg hc]
      by_cases hl : i < left.length
      · by_cases hr : i < right.length
        · have : i = 256 := by
            by_contra hne
            exact hc ⟨hl, hr, by omega⟩
          omega
        · rw [List.drop_eq_nil_of_le (by omega : right.length ≤ i), commonPrefixLen_nil_right]
          omega
      · rw [List.drop_eq_nil_of_le (by omega : left.length ≤ i)]
        simp only [commonPrefixLen]
        omega

/-- Extra fuel does not change the result of the loop: `256` iterations are
always enough. -/
theorem longestMatchLoop_fuel (left right : List Nat) (fuel : Nat) (h : 256 ≤ fuel) :
    longestMatchLoop left right fuel 0 = longestMatch left right := by
  unfold longestMatch
  rw [longestMatchLoop_eq left right fuel 0 (by omega) (by omega),
    longestMatchLoop_eq left right 256 0 (by omega) (by omega)]

/-! ## Facts about the digest and its encoding -/

theorem md4Sum_length (msg : List Nat) : (md4Sum msg).length = 16 := by
  simp [md4Sum, le32]

/-- The model of MD4 reproduces the digests of the test suite of RFC 1320 for
`""`, `"a"`, `"abc"` and `"message digest"`. -/
theorem md4Sum_rfc1320 :
    md4Sum [] = [0x31, 0xd6, 0xcf, 0xe0, 0xd1, 0x6a, 0xe9, 0x31, 0xb7, 0x3c, 0x59, 0xd7,
      0xe0, 0xc0, 0x89, 0xc0] ∧
    md4Sum (toBytes "a".toList) = [0xbd, 0xe5, 0x2c, 0xb3, 0x1d, 0xe3, 0x3e, 0x46, 0x24, 0x5e,
      0x05, 0xfb, 0xdb, 0xd6, 0xfb, 0x24] ∧
    md4Sum (toBytes "abc".toList) = [0xa4, 0x48, 0x01, 0x7a, 0xaf, 0x21, 0xd8, 0x52, 0x5f, 0xc1,
      0x0a, 0xe8, 0x7a, 0xa6, 0x72, 0x9d] ∧
    md4Sum (toBytes "message digest".toList) = [0xd9, 0x13, 0x0a, 0x81, 0x64, 0x54, 0x9f, 0xe8,
      0x18, 0x87, 0x48, 0x06, 0xe1, 0xc7, 0x01, 0x4b] := by
  refine ⟨?_, ?_, ?_, ?_⟩ <;> decide

/-- The model of the encoder reproduces the test vectors of RFC 4648, without
their padding. -/
theorem RawStdEncode_rfc4648 :
    RawStdEncode (toBytes "f".toList) = "Zg".toList ∧
    RawStdEncode (toBytes "fo".toList) = "Zm8".toList ∧
    RawStdEncode (toBytes "foo".toList) = "Zm9v".toList ∧
    RawStdEncode (toBytes "foob".toList) = "Zm9vYg".toList ∧
    RawStdEncode (toBytes "fooba".toList) = "Zm9vYmE".toList ∧
    RawStdEncode (toBytes "foobar".toList) = "Zm9vYmFy".toList := by
  decide

theorem b64Char_mem (v : Nat) : b64Char v ∈ encodeStd := by
  have hlt : v &&& 0x3F < 64 := Nat.lt_of_le_of_lt Nat.and_le_right (by decide)
  have key : ∀ i, i < 64 → encodeStd.getD i 'A' ∈ encodeStd := by decide
  exact key _ hlt

theorem RawStdEncode_length : ∀ (src : List Nat),
    (RawStdEncode src).length = (src.length * 8 + 5) / 6
  | [] => by simp [RawStdEncode]
  | [_] => by simp [RawStdEncode]
  | [_, _] => by simp [RawStdEncode]
  | _ :: _ :: _ :: rest => by
    have ih := RawStdEncode_length rest
    simp only [RawStdEncode, List.length_cons, ih]
    omega

theorem RawStdEncode_mem : ∀ (src : List Nat) (c : Char),
    c ∈ RawStdEncode src → c ∈ encodeStd
  | [], c => by simp [RawStdEncode]
  | [_], c => by
    simp only [RawStdEncode, List.mem_cons, List.mem_singleton, List.not_mem_nil, or_false]
    rintro (h | h) <;> rw [h] <;> exact b64Char_mem _
  | [_, _], c => by
    simp only [RawStdEncode, List.mem_cons, List.mem_singleton, List.not_mem_nil, or_false]
    rintro (h | h | h) <;> rw [h] <;> exact b64Char_mem _
  | _ :: _ :: _ :: rest, c => by
    have ih := RawStdEncode_mem rest c
    simp only [RawStdEncode, List.mem_cons]
    rintro (h | h | h | h | h)
    · rw [h]; exact b64Char_mem _
    · rw [h]; exact b64Char_mem _
    · rw [h]; exact b64Char_mem _
    · rw [h]; exact b64Char_mem _
    · exact ih h

/-! ## Claims -/

/-- C1: for a host part `h` without `'/'`, a module `m` without `'/'` and a path
`p` that is empty or begins with `'/'`, `SplitURI` on
`"rsync://" ++ h ++ "/" ++ m ++ p` returns no error, the address `h` (with
`":873"` appended when `h` has no `':'`), the module `m` and the path `p`. -/
theorem SplitURI_wellformed (h m p : GoString)
    (hh : '/' ∉ h) (hm : '/' ∉ m) (hp : p = [] ∨ ∃ t, p = '/' :: t) :
    SplitURI ("rsync://".toList ++ h ++ "/".toList ++ m ++ p)
      = ((if ':' ∈ h then h else h ++ ":873".toList), m, p, none) := by
  have e1 : "rsync://".toList ++ h ++ "/".toList ++ m ++ p
      = "rsync://".toList ++ (h ++ '/' :: (m ++ p)) := by simp
  have hd : ("rsync://".toList ++ (h ++ '/' :: (m ++ p))).drop 8 = h ++ '/' :: (m ++ p) := by
    simp
  have hsec : indexByte (m ++ p) '/' = (if p = [] then none else some m.length) := by
    rcases hp with rfl | ⟨t, rfl⟩
    · simp [indexByte_eq_none hm]
    · simp [indexByte_append_cons hm]
  have haddr : (match indexByte h ':' with
      | none => h ++ ":873".toList
      | some _ => h) = (if ':' ∈ h then h else h ++ ":873".toList) := by
    by_cases hc : ':' ∈ h
    · obtain ⟨i, hi⟩ := indexByte_isSome_of_mem hc
      simp [hi, hc]
    · simp [indexByte_eq_none hc, hc]
  rw [e1]
  unfold SplitURI
  rw [hasPrefix_append, hd]
  simp only [if_true, indexByte_append_cons hh, List.take_left', List.drop_left']
  have hdrop : (h ++ '/' :: (m ++ p)).drop (h.length + 1) = m ++ p := by
    rw [show h ++ '/' :: (m ++ p) = (h ++ ['/']) ++ (m ++ p) by simp]
    exact List.drop_left' (by simp)
  rw [haddr, hdrop, hsec]
  rcases hp with rfl | ⟨t, rfl⟩
  · simp
  · simp

/-- C1 at the two addresses of the specification, `"rsync://host:8730/mod/sub/dir"`
and `"rsync://host/mod"`. -/
theorem SplitURI_wellformed_witness :
    SplitURI ("rsync://".toList ++ "host:8730".toList ++ "/".toList ++ "mod".toList
        ++ "/sub/dir".toList)
      = ("host:8730".toList, "mod".toList, "/sub/dir".toList, none) ∧
    SplitURI ("rsync://".toList ++ "host".toList ++ "/".toList ++ "mod".toList ++ [])
      = ("host:873".toList, "mod".toList, [], none) :=
  ⟨SplitURI_wellformed "host:8730".toList "mod".toList "/sub/dir".toList
      (by decide) (by decide) (Or.inr ⟨"sub/dir".toList, by decide⟩),
    SplitURI_wellformed "host".toList "mod".toList []
      (by decide) (by decide) (Or.inl rfl)⟩

/-- C5: `longestMatch left right` is at most both lengths and at most 256, the
two sequences agree below it, it stops only at the cap, at the end of a
sequence or at a differing byte, and it equals the length of the longest common
prefix capped at 256. -/
theorem longestMatch_spec (left right : List Nat) :
    longestMatch left right ≤ left.length ∧
    longestMatch left right ≤ right.length ∧
    longestMatch left right ≤ 256 ∧
    (∀ j, j < longestMatch left right → left[j]? = right[j]?) ∧
    (longestMatch left right = 256 ∨ longestMatch left right = left.length ∨
      longestMatch left right = right.length ∨
      left[longestMatch left right]? ≠ right[longestMatch left right]?) ∧
    longestMatch left right = min (commonPrefixLen left right) 256 := by
  have hr : longestMatch left right = min (commonPrefixLen left right) 256 := by
    unfold longestMatch
    rw [longestMatchLoop_eq left right 256 0 (by omega) (by omega)]
    simp
  have h1 := commonPrefixLen_le_left left right
  have h2 := commonPrefixLen_le_right left right
  refine ⟨by omega, by omega, by omega, ?_, ?_, hr⟩
  · intro j hj
    exact commonPrefixLen_agree left right j (by omega)
  · by_cases hcap : 256 ≤ commonPrefixLen left right
    · left; omega
    · have e : longestMatch left right = commonPrefixLen left right := by omega
      rw [e]
      right
      exact commonPrefixLen_maximal left right

/-- C2: the challenge response is the unpadded standard base64 encoding of the
16-byte MD4 digest of `[0,0,0,0] ++ P ++ C`; it is a function of `P` and `C`
alone, has exactly 22 characters, all from the standard alphabet, and none of
them is the padding character. -/
theorem respond_spec (P C : GoString) :
    respond P C = RawStdEncode (md4Sum ([0, 0, 0, 0] ++ toBytes P ++ toBytes C)) ∧
    (md4Sum ([0, 0, 0, 0] ++ toBytes P ++ toBytes C)).length = 16 ∧
    (respond P C).length = 22 ∧
    (∀ c ∈ respond P C, c ∈ encodeStd) ∧
    '=' ∉ respond P C := by
  have hlen : (respond P C).length = 22 := by
    simp only [respond, RawStdEncode_length, md4Sum_length]
  refine ⟨by simp [respond], md4Sum_length _, hlen, ?_, ?_⟩
  · intro c hc
    exact RawStdEncode_mem _ c hc
  · intro h
    have : '=' ∈ encodeStd := RawStdEncode_mem _ _ h
    exact absurd this (by decide)

/-- C3: with credentials `(u, pw)` configured, a transport that accepts the
writes, and a server that sends, after its version line, the challenge lines
`"@RSYNCD: AUTHREQD " ++ c` for `c` in `cs` (each token non-empty and free of
spaces) and then a line containing `"@RSYNCD: OK"`, the wait loop writes exactly
the responses `u ++ " " ++ respond pw c ++ "\n"`, in the order of `cs`, and
breaks; `SocketClient` then sends the arguments and the exclusion list and
returns the `Receiver`. -/
theorem SocketClient_answers_challenges {FS : Type} (k : Consts)
    (dial : GoString → Except Error Socket) (storage : FS)
    (address module path : GoString) (opts : List ClientOption) (skt : Socket)
    (u pw : GoString) (cs : List GoString) (v : Except Error GoString) (ok : GoString)
    (rest : List (Except Error GoString))
    (hdial : dial address = .ok skt)
    (hfail : ∀ log q, skt.fail log q = none)
    (hauth : (applyOpts opts).Auth = some { Username := u, Password := pw })
    (hcs : ∀ c ∈ cs, c ≠ [] ∧ ∀ x ∈ c, isSpace x = false)
    (hok : contains ok RSYNCD_OK = true)
    (hlines : skt.lines
      = v :: (cs.map (fun c => Except.ok (RSYNC_AUTHREQD ++ c)) ++ Except.ok ok :: rest)) :
    waitLoop (applyOpts opts).Auth (readLine skt.lines).2
        { fail := skt.fail,
          sent := [toBytes k.RSYNC_VERSION, toBytes (module ++ "\n".toList)] }
      = .brk { fail := skt.fail,
               sent := [toBytes k.RSYNC_VERSION, toBytes (module ++ "\n".toList)]
                 ++ cs.map (fun c => toBytes (u ++ " ".toList ++ respond pw c ++ "\n".toList)) }
          rest ∧
    (SocketClient k dial storage address module path opts).sent
      = [toBytes k.RSYNC_VERSION, toBytes (module ++ "\n".toList)]
        ++ cs.map (fun c => toBytes (u ++ " ".toList ++ respond pw c ++ "\n".toList))
        ++ [toBytes (k.SAMPLE_ARGS ++ module ++ path ++ "\n\n".toList)]
        ++ (match skt.seed with
            | .ok _ => exclusionWrites (applyOpts opts).ExclusionList
            | .error _ => []) ∧
    (SocketClient k dial storage address module path opts).err
      = (match skt.seed with
          | .ok _ => none
          | .error e => some e) ∧
    ((SocketClient k dial storage address module path opts).recv.map
        (fun r => (r.Module, r.Path, r.Seed, r.Conn.Reader.lines, r.Conn.Reader.mux)))
      = (match skt.seed with
          | .ok seed => some (module, path, seed, rest, true)
          | .error _ => none) := by
  have hloop := waitLoop_challenges u pw cs ok rest
    { fail := skt.fail, sent := [toBytes k.RSYNC_VERSION, toBytes (module ++ "\n".toList)] }
    hcs hok hfail
  have hrl : (readLine skt.lines).2
      = cs.map (fun c => Except.ok (RSYNC_AUTHREQD ++ c)) ++ Except.ok ok :: rest := by
    rw [hlines]; rfl
  have hw1 : Writer.Write { fail := skt.fail, sent := [] } (toBytes k.RSYNC_VERSION)
      = ({ fail := skt.fail, sent := [toBytes k.RSYNC_VERSION] }, none) := by
    simp [Writer.Write, hfail]
  have hw2 : Writer.Write { fail := skt.fail, sent := [toBytes k.RSYNC_VERSION] }
        (toBytes (module ++ "\n".toList))
      = ({ fail := skt.fail,
           sent := [toBytes k.RSYNC_VERSION, toBytes (module ++ "\n".toList)] }, none) := by
    simp [Writer.Write, hfail]
  have hw3 : ∀ sent p, Writer.Write { fail := skt.fail, sent := sent } p
      = ({ fail := skt.fail, sent := sent ++ [p] }, none) := by
    intro sent p
    simp [Writer.Write, hfail]
  have hex : ∀ sent, SendExlusionList (applyOpts opts).ExclusionList
      { fail := skt.fail, sent := sent }
      = ({ fail := skt.fail, sent := sent ++ exclusionWrites (applyOpts opts).ExclusionList },
          none) :=
    fun sent => SendExlusionList_ok _ _ hfail
  rw [hauth, hrl]
  refine ⟨hloop, ?_⟩
  unfold SocketClient
  simp only [hdial, hw1, hw2, hauth, hrl, hloop, hw3, hex]
  cases skt.seed with
  | error e => simp
  | ok seed => simp

/-- C3 on the session of the specification: two challenges, then OK, give
exactly two responses, in order. -/
theorem SocketClient_answers_challenges_witness :
    (SocketClient sampleConsts (fun _ => .ok twoChallenges) () "host:873".toList
        "mod".toList "/sub".toList [WithClientAuth "u".toList "pw".toList]).sent
      = [toBytes sampleConsts.RSYNC_VERSION, toBytes ("mod".toList ++ "\n".toList)]
        ++ ["abc".toList, "def".toList].map
            (fun c => toBytes ("u".toList ++ " ".toList ++ respond "pw".toList c ++ "\n".toList))
        ++ [toBytes (sampleConsts.SAMPLE_ARGS ++ "mod".toList ++ "/sub".toList ++ "\n\n".toList)]
        ++ exclusionWrites (applyOpts [WithClientAuth "u".toList "pw".toList]).ExclusionList :=
  (SocketClient_answers_challenges sampleConsts (fun _ => .ok twoChallenges) ()
    "host:873".toList "mod".toList "/sub".toList [WithClientAuth "u".toList "pw".toList]
    twoChallenges "u".toList "pw".toList ["abc".toList, "def".toList]
    (.ok "@RSYNCD: 31.0".toList) "@RSYNCD: OK".toList []
    rfl (fun _ _ => rfl) rfl (by decide) (by decide) rfl).2.1

/-- C4: without credentials, a script that shows a challenge line (a line
containing `"@RSYNCD: AUTHREQD "`) before any line containing `"@RSYNCD: OK"`
makes `SocketClient` return a nil `Receiver` and a non-nil error, having written
nothing but (at most) its version line and the module line; when the writes are
accepted and the earlier lines are plain, the error is `server requires auth`. -/
theorem SocketClient_auth_required {FS : Type} (k : Consts)
    (dial : GoString → Except Error Socket) (storage : FS)
    (address module path : GoString) (opts : List ClientOption) (skt : Socket)
    (v : Except Error GoString) (pre : List (Except Error GoString)) (l : GoString)
    (rest : List (Except Error GoString))
    (hdial : dial address = .ok skt)
    (hauth : (applyOpts opts).Auth = none)
    (hlines : skt.lines = v :: (pre ++ Except.ok l :: rest))
    (hpre : ∀ s, Except.ok s ∈ pre → contains s RSYNCD_OK = false)
    (hl1 : contains l RSYNCD_OK = false)
    (hl2 : contains l RSYNC_AUTHREQD = true) :
    (SocketClient k dial storage address module path opts).recv.isNone = true ∧
    (SocketClient k dial storage address module path opts).err ≠ none ∧
    (SocketClient k dial storage address module path opts).sent
      <+: [toBytes k.RSYNC_VERSION, toBytes (module ++ "\n".toList)] ∧
    ((∀ log q, skt.fail log q = none) →
      (∀ r ∈ pre, ∃ s, r = Except.ok s ∧ contains s RSYNC_AUTHREQD = false) →
      (SocketClient k dial storage address module path opts).err
          = some (.text "server requires auth") ∧
        (SocketClient k dial storage address module path opts).sent
          = [toBytes k.RSYNC_VERSION, toBytes (module ++ "\n".toList)]) := by
  have hrl : (readLine skt.lines).2 = pre ++ Except.ok l :: rest := by
    rw [hlines]; rfl
  rcases Write_cases skt.fail [] (toBytes k.RSYNC_VERSION) with ⟨e1, hf1, h1⟩ | ⟨hf1, h1⟩
  · have hr : ∃ lg, SocketClient k dial storage address module path opts
        = { recv := none, err := some e1, sent := [], logs := lg } := by
      unfold SocketClient
      simp only [hdial, h1]
      exact ⟨_, rfl⟩
    obtain ⟨lg, hr⟩ := hr
    rw [hr]
    refine ⟨rfl, by simp, by simp, ?_⟩
    intro hf
    rw [hf] at hf1
    cases hf1
  · rcases Write_cases skt.fail [toBytes k.RSYNC_VERSION] (toBytes (module ++ "\n".toList))
      with ⟨e2, hf2, h2⟩ | ⟨hf2, h2⟩
    · have hr : ∃ lg, SocketClient k dial storage address module path opts
          = { recv := none, err := some e2, sent := [toBytes k.RSYNC_VERSION], logs := lg } := by
        unfold SocketClient
        simp only [hdial, h1, List.nil_append, h2]
        exact ⟨_, rfl⟩
      obtain ⟨lg, hr⟩ := hr
      rw [hr]
      refine ⟨rfl, by simp, by simp, ?_⟩
      intro hf
      rw [hf] at hf2
      cases hf2
    · obtain ⟨e, he, hspec⟩ := waitLoop_no_auth pre l rest
        { fail := skt.fail,
          sent := [toBytes k.RSYNC_VERSION] ++ [toBytes (module ++ "\n".toList)] }
        hpre hl1 hl2
      have hr : ∃ lg, SocketClient k dial storage address module path opts
          = { recv := none, err := some e,
              sent := [toBytes k.RSYNC_VERSION] ++ [toBytes (module ++ "\n".toList)],
              logs := lg } := by
        unfold SocketClient
        simp only [hdial, h1, List.nil_append, h2, hauth, hrl, he]
        exact ⟨_, rfl⟩
      obtain ⟨lg, hr⟩ := hr
      rw [hr]
      refine ⟨rfl, by simp, by simp, ?_⟩
      intro _ hplain
      exact ⟨by simp [hspec hplain], by simp⟩

/-- C4 on a session with a message of the day and a challenge, no credentials
configured. -/
theorem SocketClient_auth_required_witness :
    (SocketClient sampleConsts (fun _ => .ok oneChallenge) () "host:873".toList
        "mod".toList "/sub".toList []).recv.isNone = true ∧
    (SocketClient sampleConsts (fun _ => .ok oneChallenge) () "host:873".toList
        "mod".toList "/sub".toList []).err ≠ none :=
  have h := SocketClient_auth_required sampleConsts (fun _ => .ok oneChallenge) ()
    "host:873".toList "mod".toList "/sub".toList [] oneChallenge
    (.ok "@RSYNCD: 31.0".toList) [.ok "welcome".toList] "@RSYNCD: AUTHREQD abc".toList
    [.ok "@RSYNCD: OK".toList] rfl rfl rfl
    (by
      intro s hs
      simp only [List.mem_singleton, Except.ok.injEq] at hs
      subst hs
      decide)
    (by decide) (by decide)
  ⟨h.1, h.2.1⟩

/-- C8: on a script in which a read fails (with an error of the transport, or
because the script has ended) before any line containing `"@RSYNCD: OK"` was
sent, `SocketClient` returns a nil `Receiver` and a non-nil error; and when the
loop gets as far as that read (the writes are accepted and every line before is
passed over), the error returned is the error of that read. -/
theorem SocketClient_read_failure {FS : Type} (k : Consts)
    (dial : GoString → Except Error Socket) (storage : FS)
    (address module path : GoString) (opts : List ClientOption) (skt : Socket)
    (v : Except Error GoString) (pre : List GoString)
    (tail : List (Except Error GoString)) (e : Error)
    (hdial : dial address = .ok skt)
    (hlines : skt.lines = v :: (pre.map Except.ok ++ tail))
    (hpre : ∀ l ∈ pre, contains l RSYNCD_OK = false)
    (htail : (tail = [] ∧ e = .eof) ∨ ∃ rest, tail = Except.error e :: rest) :
    (SocketClient k dial storage address module path opts).recv.isNone = true ∧
    (SocketClient k dial storage address module path opts).err ≠ none ∧
    ((∀ log q, skt.fail log q = none) →
      (∀ l ∈ pre, passes (applyOpts opts).Auth l = true) →
      (SocketClient k dial storage address module path opts).err = some e) := by
  have hrl : (readLine skt.lines).2 = pre.map Except.ok ++ tail := by
    rw [hlines]; rfl
  have htail' : tail = [] ∨ ∃ e rest, tail = Except.error e :: rest := by
    rcases htail with ⟨h, _⟩ | ⟨rest, h⟩
    · exact Or.inl h
    · exact Or.inr ⟨e, rest, h⟩
  refine ⟨?_, ?_, ?_⟩
  · rcases Write_cases skt.fail [] (toBytes k.RSYNC_VERSION) with ⟨e1, _, h1⟩ | ⟨_, h1⟩
    · unfold SocketClient
      simp only [hdial, h1]
      rfl
    · rcases Write_cases skt.fail [toBytes k.RSYNC_VERSION] (toBytes (module ++ "\n".toList))
        with ⟨e2, _, h2⟩ | ⟨_, h2⟩
      · unfold SocketClient
        simp only [hdial, h1, List.nil_append, h2]
        rfl
      · obtain ⟨w', e', he⟩ := waitLoop_no_OK (applyOpts opts).Auth pre tail
          { fail := skt.fail,
            sent := [toBytes k.RSYNC_VERSION] ++ [toBytes (module ++ "\n".toList)] }
          hpre htail'
        unfold SocketClient
        simp only [hdial, h1, List.nil_append, h2, hrl, he]
        rfl
  · rcases Write_cases skt.fail [] (toBytes k.RSYNC_VERSION) with ⟨e1, _, h1⟩ | ⟨_, h1⟩
    · unfold SocketClient
      simp only [hdial, h1]
      simp
    · rcases Write_cases skt.fail [toBytes k.RSYNC_VERSION] (toBytes (module ++ "\n".toList))
        with ⟨e2, _, h2⟩ | ⟨_, h2⟩
      · unfold SocketClient
        simp only [hdial, h1, List.nil_append, h2]
        simp
      · obtain ⟨w', e', he⟩ := waitLoop_no_OK (applyOpts opts).Auth pre tail
          { fail := skt.fail,
            sent := [toBytes k.RSYNC_VERSION] ++ [toBytes (module ++ "\n".toList)] }
          hpre htail'
        unfold SocketClient
        simp only [hdial, h1, List.nil_append, h2, hrl, he]
        simp
  · intro hfail hpass
    obtain ⟨w', hw'⟩ := waitLoop_read_failure (applyOpts opts).Auth pre tail e
      { fail := skt.fail,
        sent := [toBytes k.RSYNC_VERSION] ++ [toBytes (module ++ "\n".toList)] }
      hpass htail hfail
    have hw : ∀ sent p, Writer.Write { fail := skt.fail, sent := sent } p
        = ({ fail := skt.fail, sent := sent ++ [p] }, none) := by
      intro sent p
      simp [Writer.Write, hfail]
    unfold SocketClient
    simp only [hdial, hrl, hw, List.nil_append, hw']

/-- C8 on a server that closes the stream after its message of the day: the
read that follows fails with the end of the stream, and that is the error
returned. -/
theorem SocketClient_read_failure_witness :
    (SocketClient sampleConsts (fun _ => .ok closesEarly) () "host:873".toList
        "mod".toList "/sub".toList []).recv.isNone = true ∧
    (SocketClient sampleConsts (fun _ => .ok closesEarly) () "host:873".toList
        "mod".toList "/sub".toList []).err = some .eof :=
  have h := SocketClient_read_failure sampleConsts (fun _ => .ok closesEarly) ()
    "host:873".toList "mod".toList "/sub".toList [] closesEarly
    (.ok "@RSYNCD: 31.0".toList) ["welcome".toList] [] .eof
    rfl rfl (by decide) (Or.inl ⟨rfl, rfl⟩)
  ⟨h.1, h.2.2 (fun _ _ => rfl) (by decide)⟩

/-- On every pre-path other than `""` and `"/"` the result of `TrimPrepath` does
end with `"/"`. -/
theorem TrimPrepath_suffix_of_nonroot (p : GoString) (h1 : p ≠ []) (h2 : p ≠ "/".toList) :
    hasSuffix (TrimPrepath p) "/".toList = true := by
  have key : ∀ q : GoString, q ≠ [] → q ≠ ['/'] → ['/'] <:+ q →
      ['/'] <:+ trimPrefix q ['/'] := by
    intro q hq1 hq2 hs
    unfold trimPrefix hasPrefix
    cases q with
    | nil => exact absurd rfl hq1
    | cons x t =>
      by_cases hx : x = '/'
      · subst hx
        have ht : t ≠ [] := fun e => hq2 (by rw [e])
        simp only [List.isPrefixOf_iff_prefix, List.prefix_cons_inj, List.nil_prefix, if_true,
          List.length_cons, List.length_nil, List.drop_succ_cons, List.drop_zero]
        obtain ⟨u, hu⟩ := hs
        cases u with
        | nil => simp at hu; exact absurd hu ht
        | cons y u =>
          simp only [List.cons_append, List.cons.injEq] at hu
          exact ⟨u, hu.2⟩
      · have : ¬ (['/'] <+: x :: t) := by
          rintro ⟨u, hu⟩
          simp only [List.cons_append, List.cons.injEq] at hu
          exact hx hu.1.symm
        simp only [List.isPrefixOf_iff_prefix, this, if_false]
        exact hs
  unfold TrimPrepath hasSuffix
  simp only [String.toList] at *
  rw [List.isSuffixOf_iff_suffix]
  by_cases hs : ['/'] <:+ p
  · have hb : ['/'].isSuffixOf p = true := List.isSuffixOf_iff_suffix.2 hs
    simp only [hb, Bool.not_true, Bool.false_eq_true, if_false]
    exact key p h1 h2 hs
  · have hb : ['/'].isSuffixOf p = false :=
      Bool.eq_false_iff.2 (fun h => hs (List.isSuffixOf_iff_suffix.1 h))
    simp only [hb, Bool.not_false, if_true]
    refine key (p ++ ['/']) (by simp) ?_ ⟨p, rfl⟩
    intro e
    have : (p ++ ['/']).length = 1 := by rw [e]; rfl
    simp at this
    exact h1 this

/-- Trimming the prefix `"/"` from a string that does not begin with `"//"`
leaves a string that does not begin with `"/"`. -/
theorem trimPrefix_slash_no_prefix (q : GoString) (hq : hasPrefix q ['/', '/'] = false) :
    hasPrefix (trimPrefix q ['/']) ['/'] = false := by
  cases q with
  | nil => simp [trimPrefix, hasPrefix]
  | cons x t =>
    by_cases hx : x = '/'
    · subst hx
      cases t with
      | nil => simp [trimPrefix, hasPrefix]
      | cons y u =>
        have hy : ¬ y = '/' := by
          intro e
          subst e
          simp [hasPrefix] at hq
        have hy' : ¬ '/' = y := fun e => hy e.symm
        simp [trimPrefix, hasPrefix, List.isPrefixOf, hy']
    · have hx' : ¬ '/' = x := fun e => hx e.symm
      simp [trimPrefix, hasPrefix, List.isPrefixOf, hx']

/-- Appending `"/"` to a string that neither ends with `"/"` nor begins with
`"//"` gives a string that does not begin with `"//"`. -/
theorem append_slash_no_double (p : GoString) (h : hasPrefix p ['/', '/'] = false)
    (hs : ¬ hasSuffix p ['/'] = true) : hasPrefix (p ++ ['/']) ['/', '/'] = false := by
  cases p with
  | nil => simp [hasPrefix, List.isPrefixOf]
  | cons x t =>
    cases t with
    | nil =>
      by_cases hx : x = '/'
      · subst hx
        exact absurd (by decide) hs
      · have hx' : ¬ '/' = x := fun e => hx e.symm
        simp [hasPrefix, List.isPrefixOf, hx']
    | cons y u =>
      simpa [hasPrefix, List.isPrefixOf] using h

/-- C6: at the pre-paths `""` and `"/"`, both listed in the source comment,
`TrimPrepath` returns the empty string, which has no `"/"` suffix. -/
theorem TrimPrepath_root_no_suffix :
    TrimPrepath [] = [] ∧ TrimPrepath "/".toList = [] ∧
    hasSuffix (TrimPrepath []) "/".toList = false ∧
    hasSuffix (TrimPrepath "/".toList) "/".toList = false := by
  decide

/-- C7: `SplitURI` accepts `"rsync://host/"` and `"rsync://host//sub"`, returning
an empty module name with a nil error, whereas `"rsync://host"` is rejected
with `no module name`. -/
theorem SplitURI_empty_module :
    SplitURI "rsync://host/".toList = ("host:873".toList, [], [], none) ∧
    SplitURI "rsync://host//sub".toList = ("host:873".toList, [], "/sub".toList, none) ∧
    SplitURI "rsync://host".toList = ([], [], [], some (.text "no module name")) := by
  decide

/-- `SplitURIS` has no path that returns a non-nil error: it either panics or
returns with a nil error. -/
theorem SplitURIS_error_nil (uri : GoString) :
    (∃ msg, SplitURIS uri = .panic msg) ∨
    (∃ host port module path, SplitURIS uri = .ret (host, port, module, path, none)) := by
  unfold SplitURIS
  by_cases hp : hasPrefix uri "rsync://".toList = true
  · simp only [hp, if_true]
    cases indexByte (List.drop 8 uri) '/' with
    | none => exact Or.inl ⟨_, rfl⟩
    | some i =>
      dsimp only
      cases indexByte (List.take i (List.drop 8 uri)) ':' with
      | none =>
        dsimp only
        cases indexByte (List.drop (i + 1) (List.drop 8 uri)) '/' with
        | none => exact Or.inr ⟨_, _, _, _, rfl⟩
        | some j => exact Or.inr ⟨_, _, _, _, rfl⟩
      | some k =>
        dsimp only
        cases Atoi (List.drop (k + 1) (List.take i (List.drop 8 uri))) with
        | error e => exact Or.inl ⟨_, rfl⟩
        | ok port =>
          dsimp only
          cases indexByte (List.drop (i + 1) (List.drop 8 uri)) '/' with
          | none => exact Or.inr ⟨_, _, _, _, rfl⟩
          | some j => exact Or.inr ⟨_, _, _, _, rfl⟩
  · simp only [hp]
    exact Or.inl ⟨_, rfl⟩

/-- C9: `SplitURIS` panics, rather than returning an error, on an address
without a module, on a non-numeric port and on an address without the
`rsync://` scheme. -/
theorem SplitURIS_panics :
    SplitURIS "rsync://host".toList = .panic "No module name" ∧
    SplitURIS "rsync://host:abc/mod".toList = .panic "Wrong port" ∧
    SplitURIS "host::module".toList = .panic "No implement yet" := by
  refine ⟨?_, ?_, ?_⟩ <;> decide

/-- What `SplitURL` returns on a well-formed address: the address and the module
of `SplitURI`, and the path without its leading `'/'`. -/
theorem SplitURL_wellformed (h m p : GoString) (hm : '/' ∉ m)
    (hp : p = [] ∨ ∃ t, p = '/' :: t) :
    SplitURL { Host := h, Path := "/".toList ++ m ++ p }
      = .ret ((if ':' ∈ h then h else h ++ ":873".toList), m, p.drop 1, none) := by
  have e : "/".toList ++ m ++ p = '/' :: (m ++ p) := rfl
  have h0 : ∀ k rest, splitLoop '/' (k + 1) ('/' :: rest) = [] :: splitLoop '/' k rest := by
    intro k rest
    simp [splitLoop, indexByte]
  have hsplit : SplitN ('/' :: (m ++ p)) '/' 3
      = if p = [] then [[], m] else [[], m, p.drop 1] := by
    rcases hp with rfl | ⟨t, rfl⟩
    · cases m with
      | nil => simp [SplitN, splitLoop, indexByte]
      | cons x xs =>
        have hk : min 3 (('/' :: (x :: xs ++ [])).length + 1) - 1 = 1 + 1 := by
          simp only [List.length_append, List.length_cons, List.length_nil]
          omega
        have hi : indexByte (x :: xs ++ []) '/' = none := by
          rw [List.append_nil]
          exact indexByte_eq_none hm
        simp only [SplitN, hk, h0]
        simp only [splitLoop, hi]
        simp
    · have hk : min 3 (('/' :: (m ++ '/' :: t)).length + 1) - 1 = 1 + 1 := by
        simp only [List.length_append, List.length_cons, List.length_nil]
        omega
      have hi : indexByte (m ++ '/' :: t) '/' = some m.length := indexByte_append_cons hm t
      have hd : (m ++ '/' :: t).drop (m.length + 1) = t := by
        rw [show m ++ '/' :: t = (m ++ ['/']) ++ t by simp]
        exact List.drop_left' (by simp)
      simp only [SplitN, hk, h0]
      simp only [splitLoop, hi, hd]
      simp
  have hhost : (!contains h ":".toList) = !decide (':' ∈ h) := by
    by_cases hc : ':' ∈ h
    · simp [hc, (contains_singleton ':' h).2 hc]
    · have : contains h [':'] = false :=
        Bool.eq_false_iff.2 (fun e => hc ((contains_singleton ':' h).1 e))
      simp [hc, this]
  rw [e]
  unfold SplitURL
  dsimp only
  rw [hhost]
  generalize hS : SplitN ('/' :: (m ++ p)) '/' 3 = S
  rw [hsplit] at hS
  subst hS
  rcases hp with rfl | ⟨t, rfl⟩
  · by_cases hc : ':' ∈ h <;> simp [hc]
  · by_cases hc : ':' ∈ h <;> simp [hc]

/-- C10: on `Host = "host:8730"`, `Path = "/mod/sub/dir"`, `SplitURL` returns the
path `"sub/dir"`, without the leading `'/'` that `SplitURI` keeps. -/
theorem SplitURL_drops_leading_slash :
    SplitURL ⟨"host:8730".toList, "/mod/sub/dir".toList⟩
      = .ret ("host:8730".toList, "mod".toList, "sub/dir".toList, none) ∧
    SplitURI "rsync://host:8730/mod/sub/dir".toList
      = ("host:8730".toList, "mod".toList, "/sub/dir".toList, none) := by
  decide

/-- C18: `longestMatch` gives the same result when its two arguments are
swapped. -/
theorem longestMatch_symm (a b : List Nat) : longestMatch a b = longestMatch b a := by
  unfold longestMatch
  rw [longestMatchLoop_eq a b 256 0 (by omega) (by omega),
    longestMatchLoop_eq b a 256 0 (by omega) (by omega)]
  simp only [List.drop_zero, Nat.zero_add, commonPrefixLen_comm a b]

/-- C14, as the claim states it, fails: on `"//"` and on `"//x"` the result of
`TrimPrepath` begins with `"/"`. -/
theorem TrimPrepath_double_slash :
    hasPrefix (TrimPrepath "//".toList) "/".toList = true ∧
    TrimPrepath "//".toList = "/".toList ∧
    TrimPrepath "//x".toList = "/x/".toList := by
  decide

/-- C14, amended: on every pre-path that does not begin with `"//"`, the result
of `TrimPrepath` does not begin with `"/"`. -/
theorem TrimPrepath_no_prefix (prepath : GoString)
    (h : hasPrefix prepath "//".toList = false) :
    hasPrefix (TrimPrepath prepath) "/".toList = false := by
  unfold TrimPrepath
  simp only [String.toList] at *
  by_cases hs : hasSuffix prepath ['/'] = true
  · simp only [hs, Bool.not_true, Bool.false_eq_true, if_false]
    exact trimPrefix_slash_no_prefix prepath h
  · simp only [hs, Bool.not_false, if_true]
    exact trimPrefix_slash_no_prefix _ (append_slash_no_double prepath h hs)

/-- C14 amended, at the pre-path `"/xx"` of the source comment. -/
theorem TrimPrepath_no_prefix_witness :
    hasPrefix "/xx".toList "//".toList = false ∧
    hasPrefix (TrimPrepath "/xx".toList) "/".toList = false :=
  ⟨by decide, TrimPrepath_no_prefix "/xx".toList (by decide)⟩

/-- C17: on every string `p` that does not begin with `"//"`, applying
`TrimPrepath` twice gives the same as applying it once. -/
theorem TrimPrepath_idempotent (p : GoString) (h : hasPrefix p "//".toList = false) :
    TrimPrepath (TrimPrepath p) = TrimPrepath p := by
  by_cases h1 : p = []
  · subst h1
    decide
  · by_cases h2 : p = "/".toList
    · subst h2
      decide
    · have hs := TrimPrepath_suffix_of_nonroot p h1 h2
      have hp : hasPrefix (TrimPrepath p) "/".toList = false := by
        unfold TrimPrepath
        simp only [String.toList] at *
        by_cases hsuf : hasSuffix p ['/'] = true
        · simp only [hsuf, Bool.not_true, Bool.false_eq_true, if_false]
          exact trimPrefix_slash_no_prefix p h
        · simp only [hsuf, Bool.not_false, if_true]
          exact trimPrefix_slash_no_prefix _ (append_slash_no_double p h hsuf)
      generalize TrimPrepath p = r at hs hp
      unfold TrimPrepath
      simp only [hs, Bool.not_true, Bool.false_eq_true, if_false, trimPrefix, hp]

/-- C17 at the pre-path `"/xx"`: both sides are `"xx/"`. -/
theorem TrimPrepath_idempotent_witness :
    TrimPrepath (TrimPrepath "/xx".toList) = TrimPrepath "/xx".toList ∧
    TrimPrepath "/xx".toList = "xx/".toList :=
  ⟨TrimPrepath_idempotent "/xx".toList (by decide), by decide⟩

/-- `strings.SplitN` with `n = 3` returns at least one piece, so the test
`len(split) < 1` of `SplitURL` is never true. -/
theorem SplitN_three_length_pos (s : GoString) : 1 ≤ (SplitN s '/' 3).length := by
  unfold SplitN
  simp only [OfNat.ofNat_ne_zero, if_false]
  cases h : min 3 (s.length + 1) - 1 with
  | zero => simp [splitLoop]
  | succ k =>
    unfold splitLoop
    cases indexByte s '/' <;> simp

/-- `SplitURL` never returns an error: it panics or returns with a nil error. -/
theorem SplitURL_error_nil (url : URL) :
    (∃ msg, SplitURL url = .panic msg) ∨
    (∃ hostport module path, SplitURL url = .ret (hostport, module, path, none)) := by
  have hlen := SplitN_three_length_pos url.Path
  unfold SplitURL
  dsimp only
  rw [if_neg (by omega)]
  cases (SplitN url.Path '/' 3)[1]? with
  | none => exact Or.inl ⟨_, rfl⟩
  | some m => exact Or.inr ⟨_, _, _, rfl⟩

/-- C11: on the empty `Path` and on a `Path` without `'/'`, `SplitURL` indexes
`split[1]` on a one-element slice and panics; on the `Path` `"/"` it returns an
empty module with a nil error. -/
theorem SplitURL_index_out_of_range :
    SplitURL { Host := "host".toList, Path := [] }
      = .panic "runtime error: index out of range [1] with length 1" ∧
    SplitURL { Host := "host".toList, Path := "mod".toList }
      = .panic "runtime error: index out of range [1] with length 1" ∧
    SplitURL { Host := "host".toList, Path := "/".toList }
      = .ret ("host:873".toList, [], [], none) := by
  refine ⟨?_, ?_, ?_⟩ <;> decide

/-- C13: `SplitURI` returns the port text as it stands, with a nil error, on the
ports `"abc"` and `""`, which the sibling `SplitURIS` refuses with
`Wrong port`. -/
theorem SplitURI_accepts_bad_port :
    SplitURI "rsync://host:abc/mod".toList = ("host:abc".toList, "mod".toList, [], none) ∧
    SplitURI "rsync://host:/mod".toList = ("host:".toList, "mod".toList, [], none) ∧
    SplitURIS "rsync://host:abc/mod".toList = .panic "Wrong port" ∧
    SplitURIS "rsync://host:/mod".toList = .panic "Wrong port" := by
  refine ⟨?_, ?_, ?_, ?_⟩ <;> decide

/-- C16: wherever `SplitURIS` returns, its error is nil and `SplitURI` returns no
error, the same module and the same path; its address is `host ++ ":873"` (and
the port is 873) when the authority part has no `':'`, and otherwise
`host ++ ":" ++ q` for the port text `q`, whose value under `strconv.Atoi` is the
port. -/
theorem SplitURI_refines_SplitURIS (uri host module path : GoString) (port : Int)
    (err : Option Error)
    (h : SplitURIS uri = .ret (host, port, module, path, err)) :
    err = none ∧
    ∃ address, SplitURI uri = (address, module, path, none) ∧
      (':' ∉ authority uri → port = 873 ∧ address = host ++ ":873".toList) ∧
      (':' ∈ authority uri →
        ∃ q, Atoi q = .ok port ∧ address = host ++ ":".toList ++ q) := by
  unfold SplitURIS at h
  by_cases hp : hasPrefix uri "rsync://".toList = true
  · simp only [hp, if_true] at h
    cases h1 : indexByte (uri.drop 8) '/' with
    | none => simp only [h1] at h; cases h
    | some i =>
      simp only [h1] at h
      have hauth : authority uri = (uri.drop 8).take i := takeWhile_of_indexByte h1
      cases h2 : indexByte ((uri.drop 8).take i) ':' with
      | none =>
        simp only [h2] at h
        have hno : ':' ∉ (uri.drop 8).take i := not_mem_of_indexByte_none h2
        cases h3 : indexByte ((uri.drop 8).drop (i + 1)) '/' with
        | none =>
          simp only [h3, Outcome.ret.injEq, Prod.mk.injEq] at h
          obtain ⟨rfl, rfl, rfl, rfl, rfl⟩ := h
          refine ⟨rfl, (uri.drop 8).take i ++ ":873".toList,
            by simp only [SplitURI, hp, if_true, h1, h2, h3], ?_, ?_⟩
          · intro _; exact ⟨rfl, rfl⟩
          · intro hin; rw [hauth] at hin; exact absurd hin hno
        | some j =>
          simp only [h3, Outcome.ret.injEq, Prod.mk.injEq] at h
          obtain ⟨rfl, rfl, rfl, rfl, rfl⟩ := h
          refine ⟨rfl, (uri.drop 8).take i ++ ":873".toList,
            by simp only [SplitURI, hp, if_true, h1, h2, h3], ?_, ?_⟩
          · intro _; exact ⟨rfl, rfl⟩
          · intro hin; rw [hauth] at hin; exact absurd hin hno
      | some k =>
        simp only [h2] at h
        have hsplit := indexByte_some_split h2
        have hin : ':' ∈ (uri.drop 8).take i := by
          rw [hsplit]; simp
        cases h4 : Atoi (((uri.drop 8).take i).drop (k + 1)) with
        | error e => simp only [h4] at h; cases h
        | ok pt =>
          simp only [h4] at h
          cases h3 : indexByte ((uri.drop 8).drop (i + 1)) '/' with
          | none =>
            simp only [h3, Outcome.ret.injEq, Prod.mk.injEq] at h
            obtain ⟨rfl, rfl, rfl, rfl, rfl⟩ := h
            refine ⟨rfl, (uri.drop 8).take i,
              by simp only [SplitURI, hp, if_true, h1, h2, h3], ?_, ?_⟩
            · intro hnot; rw [hauth] at hnot; exact absurd hin hnot
            · intro _
              exact ⟨_, h4, by simpa using hsplit⟩
          | some j =>
            simp only [h3, Outcome.ret.injEq, Prod.mk.injEq] at h
            obtain ⟨rfl, rfl, rfl, rfl, rfl⟩ := h
            refine ⟨rfl, (uri.drop 8).take i,
              by simp only [SplitURI, hp, if_true, h1, h2, h3], ?_, ?_⟩
            · intro hnot; rw [hauth] at hnot; exact absurd hin hnot
            · intro _
              exact ⟨_, h4, by simpa using hsplit⟩
  · simp only [hp] at h
    cases h

/-- C16 at `"rsync://host:8730/mod/sub/dir"`, where `SplitURIS` returns the host
`"host"` and the port 8730, and at `"rsync://host/mod"`, where it returns the
default port. -/
theorem SplitURI_refines_SplitURIS_witness :
    SplitURIS "rsync://host:8730/mod/sub/dir".toList
      = .ret ("host".toList, 8730, "mod".toList, "/sub/dir".toList, none) ∧
    (∃ address, SplitURI "rsync://host:8730/mod/sub/dir".toList
        = (address, "mod".toList, "/sub/dir".toList, none) ∧
      (':' ∉ authority "rsync://host:8730/mod/sub/dir".toList →
        (8730 : Int) = 873 ∧ address = "host".toList ++ ":873".toList) ∧
      (':' ∈ authority "rsync://host:8730/mod/sub/dir".toList →
        ∃ q, Atoi q = .ok 8730 ∧ address = "host".toList ++ ":".toList ++ q)) :=
  ⟨by decide,
    (SplitURI_refines_SplitURIS "rsync://host:8730/mod/sub/dir".toList "host".toList
      "mod".toList "/sub/dir".toList 8730 none (by decide)).2⟩

/-- C12: whatever the read of the version line gives (a line that parses, one
that does not, or a failed read, be it on a stream already closed),
`SocketClient` returns the same `Receiver` and the same error and makes the same
writes, as long as the two scripts are the same after that first read; and once
its own version line is written it goes on to write `module ++ "\n"`: a rejection
of that write is the error returned, and otherwise the module line is the second
write. -/
theorem SocketClient_version_line {FS : Type} (k : Consts)
    (dial₁ dial₂ : GoString → Except Error Socket) (storage : FS)
    (address module path : GoString) (opts : List ClientOption)
    (fail : List (List Nat) → List Nat → Option Error) (seed : Except Error Int)
    (lines₁ lines₂ : List (Except Error GoString))
    (hrest : (readLine lines₁).2 = (readLine lines₂).2)
    (hd₁ : dial₁ address = .ok { fail := fail, lines := lines₁, seed := seed })
    (hd₂ : dial₂ address = .ok { fail := fail, lines := lines₂, seed := seed }) :
    (SocketClient k dial₁ storage address module path opts).recv
      = (SocketClient k dial₂ storage address module path opts).recv ∧
    (SocketClient k dial₁ storage address module path opts).err
      = (SocketClient k dial₂ storage address module path opts).err ∧
    (SocketClient k dial₁ storage address module path opts).sent
      = (SocketClient k dial₂ storage address module path opts).sent ∧
    (fail [] (toBytes k.RSYNC_VERSION) = none →
      (∀ e, fail [toBytes k.RSYNC_VERSION] (toBytes (module ++ "\n".toList)) = some e →
        (SocketClient k dial₁ storage address module path opts).err = some e ∧
        (SocketClient k dial₁ storage address module path opts).sent
          = [toBytes k.RSYNC_VERSION]) ∧
      (fail [toBytes k.RSYNC_VERSION] (toBytes (module ++ "\n".toList)) = none →
        ∃ t, (SocketClient k dial₁ storage address module path opts).sent
          = toBytes k.RSYNC_VERSION :: toBytes (module ++ "\n".toList) :: t)) := by
  refine ⟨?_, ?_, ?_, ?_⟩
  · unfold SocketClient
    simp only [hd₁, hd₂, hrest]
    generalize SscanfVersion _ = p₁
    generalize SscanfVersion _ = p₂
    repeat' split
    all_goals rfl
  · unfold SocketClient
    simp only [hd₁, hd₂, hrest]
    generalize SscanfVersion _ = p₁
    generalize SscanfVersion _ = p₂
    repeat' split
    all_goals rfl
  · unfold SocketClient
    simp only [hd₁, hd₂, hrest]
    generalize SscanfVersion _ = p₁
    generalize SscanfVersion _ = p₂
    repeat' split
    all_goals rfl
  · intro hf1
    have h1 : Writer.Write { fail := fail, sent := [] } (toBytes k.RSYNC_VERSION)
        = ({ fail := fail, sent := [toBytes k.RSYNC_VERSION] }, none) := by
      simp [Writer.Write, hf1]
    refine ⟨?_, ?_⟩
    · intro e hf2
      have h2 : Writer.Write { fail := fail, sent := [toBytes k.RSYNC_VERSION] }
          (toBytes (module ++ "\n".toList))
          = ({ fail := fail, sent := [toBytes k.RSYNC_VERSION] }, some e) := by
        rcases Write_cases fail [toBytes k.RSYNC_VERSION] (toBytes (module ++ "\n".toList))
          with ⟨e', hf', h⟩ | ⟨hf', _⟩
        · rw [hf2] at hf'
          cases hf'
          exact h
        · rw [hf2] at hf'
          cases hf'
      have hr : ∃ lg, SocketClient k dial₁ storage address module path opts
          = { recv := none, err := some e, sent := [toBytes k.RSYNC_VERSION], logs := lg } := by
        unfold SocketClient
        simp only [hd₁, h1, h2]
        exact ⟨_, rfl⟩
      obtain ⟨lg, hr⟩ := hr
      rw [hr]
      exact ⟨rfl, rfl⟩
    · intro hf2
      have h2 : Writer.Write { fail := fail, sent := [toBytes k.RSYNC_VERSION] }
          (toBytes (module ++ "\n".toList))
          = ({ fail := fail,
               sent := [toBytes k.RSYNC_VERSION] ++ [toBytes (module ++ "\n".toList)] },
              none) := by
        rcases Write_cases fail [toBytes k.RSYNC_VERSION] (toBytes (module ++ "\n".toList))
          with ⟨e', hf', _⟩ | ⟨_, h⟩
        · rw [hf2] at hf'
          cases hf'
        · exact h
      have hl := waitLoop_sent (applyOpts opts).Auth (readLine lines₁).2
        { fail := fail,
          sent := [toBytes k.RSYNC_VERSION] ++ [toBytes (module ++ "\n".toList)] }
      unfold SocketClient
      simp only [hd₁, h1, h2]
      cases hL : waitLoop (applyOpts opts).Auth (readLine lines₁).2
        { fail := fail,
          sent := [toBytes k.RSYNC_VERSION] ++ [toBytes (module ++ "\n".toList)] } with
      | ret w' e =>
        obtain ⟨t, ht⟩ := hl.2 w' e hL
        exact ⟨t, by simp only [ht]; rfl⟩
      | brk w' lines =>
        obtain ⟨t, ht⟩ := hl.1 w' lines hL
        simp only []
        obtain ⟨t3, ht3⟩ := Write_sent w'
          (toBytes (k.SAMPLE_ARGS ++ module ++ path ++ "\n\n".toList))
        rcases hW : w'.Write (toBytes (k.SAMPLE_ARGS ++ module ++ path ++ "\n\n".toList))
          with ⟨w3, _ | e3⟩
        · rw [hW] at ht3
          simp only [] at ht3 ⊢
          cases seed with
          | error es => exact ⟨t ++ t3, by simp only [ht3, ht]; simp⟩
          | ok sd =>
            simp only []
            obtain ⟨t4, ht4⟩ := SendExlusionList_sent (applyOpts opts).ExclusionList w3
            rcases hE : SendExlusionList (applyOpts opts).ExclusionList w3 with ⟨w4, _ | e4⟩
            · rw [hE] at ht4
              simp only [] at ht4 ⊢
              exact ⟨t ++ t3 ++ t4, by simp only [ht4, ht3, ht]; simp⟩
            · rw [hE] at ht4
              simp only [] at ht4 ⊢
              exact ⟨t ++ t3 ++ t4, by simp only [ht4, ht3, ht]; simp⟩
        · rw [hW] at ht3
          simp only [] at ht3 ⊢
          exact ⟨t ++ t3, by simp only [ht3, ht]; simp⟩

/-- C12 on the two-challenge session: the version line `"@RSYNCD: 31.0"` and the
line `"hello"`, which does not parse, give the same result and the same
writes. -/
theorem SocketClient_version_line_witness :
    (SocketClient sampleConsts (fun _ => .ok twoChallenges) () "host:873".toList
        "mod".toList "/sub".toList [WithClientAuth "u".toList "pw".toList]).recv
      = (SocketClient sampleConsts (fun _ => .ok twoChallengesBadVersion) () "host:873".toList
        "mod".toList "/sub".toList [WithClientAuth "u".toList "pw".toList]).recv ∧
    (SocketClient sampleConsts (fun _ => .ok twoChallenges) () "host:873".toList
        "mod".toList "/sub".toList [WithClientAuth "u".toList "pw".toList]).err
      = (SocketClient sampleConsts (fun _ => .ok twoChallengesBadVersion) () "host:873".toList
        "mod".toList "/sub".toList [WithClientAuth "u".toList "pw".toList]).err ∧
    (SocketClient sampleConsts (fun _ => .ok twoChallenges) () "host:873".toList
        "mod".toList "/sub".toList [WithClientAuth "u".toList "pw".toList]).sent
      = (SocketClient sampleConsts (fun _ => .ok twoChallengesBadVersion) () "host:873".toList
        "mod".toList "/sub".toList [WithClientAuth "u".toList "pw".toList]).sent :=
  have h := SocketClient_version_line sampleConsts (fun _ => .ok twoChallenges)
    (fun _ => .ok twoChallengesBadVersion) () "host:873".toList "mod".toList "/sub".toList
    [WithClientAuth "u".toList "pw".toList] (fun _ _ => none) (.ok 7)
    twoChallenges.lines twoChallengesBadVersion.lines rfl rfl rfl
  ⟨h.1, h.2.1, h.2.2.1⟩

/-- C15: lines that contain neither `"@RSYNCD: OK"` nor `"@RSYNCD: AUTHREQD "`,
inserted anywhere in the part of the script that the wait loop reads before the
OK line, change nothing: `SocketClient` returns the same values, makes the same
writes and logs the same records. -/
theorem SocketClient_ignores_other_lines {FS : Type} (k : Consts)
    (dial₁ dial₂ : GoString → Except Error Socket) (storage : FS)
    (address module path : GoString) (opts : List ClientOption)
    (fail : List (List Nat) → List Nat → Option Error) (seed : Except Error Int)
    (v : Except Error GoString) (pre pre' post : List (Except Error GoString))
    (hpad : Padded pre pre')
    (hpre : ∀ t, Except.ok t ∈ pre → contains t RSYNCD_OK = false)
    (hd₁ : dial₁ address = .ok { fail := fail, lines := v :: (pre ++ post), seed := seed })
    (hd₂ : dial₂ address = .ok { fail := fail, lines := v :: (pre' ++ post), seed := seed }) :
    SocketClient k dial₂ storage address module path opts
      = SocketClient k dial₁ storage address module path opts := by
  unfold SocketClient
  simp only [hd₁, hd₂, readLine, waitLoop_padded (applyOpts opts).Auth hpad hpre]

/-- C15 on the session with one challenge: a line inserted before the challenge
and another one between the challenge and the OK line change nothing. -/
theorem SocketClient_ignores_other_lines_witness :
    SocketClient sampleConsts (fun _ => .ok oneChallengePadded) () "host:873".toList
        "mod".toList "/sub".toList [WithClientAuth "u".toList "pw".toList]
      = SocketClient sampleConsts (fun _ => .ok oneChallenge) () "host:873".toList
        "mod".toList "/sub".toList [WithClientAuth "u".toList "pw".toList] :=
  SocketClient_ignores_other_lines sampleConsts (fun _ => .ok oneChallenge)
    (fun _ => .ok oneChallengePadded) () "host:873".toList "mod".toList "/sub".toList
    [WithClientAuth "u".toList "pw".toList] (fun _ _ => none) (.ok 7)
    (.ok "@RSYNCD: 31.0".toList)
    [.ok "welcome".toList, .ok "@RSYNCD: AUTHREQD abc".toList]
    [.ok "welcome".toList, .ok "motd".toList, .ok "@RSYNCD: AUTHREQD abc".toList,
      .ok "more".toList]
    [.ok "@RSYNCD: OK".toList]
    (.keep _ (.insert "motd".toList (by decide) (by decide)
      (.keep _ (.insert "more".toList (by decide) (by decide) .nil))))
    (by
      intro t ht
      simp only [List.mem_cons, Except.ok.injEq, List.mem_singleton, List.not_mem_nil,
        or_false] at ht
      rcases ht with rfl | rfl <;> decide)
    rfl rfl

end Rsync
